import Mathlib

/-!
Packet engine of `uc-generic-fsm.c`.

A shallow embedding of the microcontroller-side packet engine
(`src/uc-interfaces/arduino-uno-uart/uc-generic-fsm.c`): the packet reader
`fsm_read_next`, the blocking engine `fsm_poll`, the incremental engine
`fsm_isr`, the dispatcher `fsm_run` and the acknowledgement path
`fsm_ack` / `fsm_send`.

Conventions of the embedding.

* The file-scope variables of the C file are the fields of `State`; every C
  function is a function on `State`.
* The four heap buffers are reached through raw pointers in the source. Each
  is a map from offsets to bytes (`State.mem`, indexed by the buffer's name),
  so a store never faults: allocation sizes
  (`fsm_setup`) are not part of what the functions below check, exactly as in
  the source, which has no bounds test.
* The `extern` hooks of the transport (`uc_bytes_available`, `uc_getch`,
  `uc_delay`, `uc_send`, `uc_reset_buffers`) and of the application (`uc_io`,
  `uc_data_transmit`, `uc_programmer`, `uc_reset`) are defined per
  microcontroller, outside the file. The byte source is a queue of pending
  bytes plus a schedule of bursts, one of which arrives during each call of
  `uc_delay`; every call of a hook that has an effect outside the engine is
  recorded, in order, in `State.trace`.
* A loop that may spin (`while` in `fsm_read_next`) takes a fuel argument and
  answers `none` when the fuel runs out before the loop ends.
-/

namespace UcFsm

/-- An 8-bit unsigned value (`uint8_t`). -/
abbrev Byte := Fin 256

/-- Modelled from the spec: the header `uc-generic-fsm.h` is absent; the wire
format `[major_key:1][stage2_len:1]...` fixes a stage-one size of two bytes. -/
def num_s1_bytes : Nat := 2

/-- Modelled from the spec: the header `uc-generic-fsm.h` is absent; the major
key is the first byte of the wire format. -/
def s1_major_key_loc : Nat := 0

/-- Modelled from the spec: the header `uc-generic-fsm.h` is absent; the
stage-two length is the second byte of the wire format. -/
def s1_num_s2_bytes_loc : Nat := 1

/-- The polling step of `fsm_read_next` in milliseconds (`check_delay`). -/
def check_delay : Nat := 10

/-- The modulus of `uint32_t` arithmetic. -/
def UINT32_MOD : Nat := 2 ^ 32

/-- A checksum strategy (`checksum_struct`): its size, its compute function
(data bytes and start value to checksum bytes) and its verify function
(received against computed). The functions named in the source
(`crc-8-lut.h`) are absent, so a strategy is a parameter; `size_ok` records
that compute fills exactly `get_checksum_size` bytes of its output buffer. -/
structure checksum_struct where
  get_checksum_size : Nat
  get_checksum : List Byte → List Byte → List Byte
  check_checksum : List Byte → List Byte → Bool
  size_ok : ∀ data start, (get_checksum data start).length = get_checksum_size

/-- What the absent headers and the per-microcontroller code supply: the key
constants, the packet timeout, the four checksum strategies and the effect of
`uc_reset_buffers` on the bytes pending in the transport. `keys_nodup` is the
spec's requirement that the six keys are distinct (the three `case` labels of
a C `switch` cannot coincide). -/
structure Env where
  MAJOR_KEY_ERROR : Byte
  MAJOR_KEY_RESET : Byte
  MAJOR_KEY_ACK : Byte
  GUI_TYPE_IO : Byte
  GUI_TYPE_DATA_TRANSMIT : Byte
  GUI_TYPE_PROGRAMMER : Byte
  packet_timeout : Nat
  io_checksum : checksum_struct
  data_transfer_checksum : checksum_struct
  programmer_checksum : checksum_struct
  default_checksum : checksum_struct
  uc_reset_buffers : List Byte → List Byte
  keys_nodup : [MAJOR_KEY_ERROR, MAJOR_KEY_RESET, MAJOR_KEY_ACK, GUI_TYPE_IO,
    GUI_TYPE_DATA_TRANSMIT, GUI_TYPE_PROGRAMMER].Nodup

/-- One call of a hook with an effect outside the engine. -/
inductive Event where
  | uc_delay (ms : Nat)
  | uc_send (data : List Byte)
  | uc_reset_buffers
  | uc_reset
  | uc_io (buffer : List Byte) (len : Nat)
  | uc_data_transmit (buffer : List Byte) (len : Nat)
  | uc_programmer (buffer : List Byte) (len : Nat)
  deriving DecidableEq, Repr

/-- The four heap buffers of the engine. -/
inductive Region where
  | fsm_buffer
  | fsm_checksum_buffer
  | fsm_checksum_cmp_buffer
  | fsm_ack_buffer
  deriving DecidableEq, Repr

/-- A pointer into one of the buffers (`uint8_t*`). -/
structure Ptr where
  region : Region
  off : Nat
  deriving DecidableEq, Repr

/-- The file-scope variables of `uc-generic-fsm.c`, the byte source
(`pending`, `incoming`) and the record of hook calls (`trace`). `mem` holds
the contents of the four buffers; `fsm_buffer_ptr` is an offset into
`fsm_buffer`. -/
@[ext]
structure State where
  mem : Region → Nat → Byte
  num_s2_bytes : Byte
  major_key : Byte
  curr_packet_stage : Byte
  checksum_max_size : Nat
  fsm_buffer_ptr : Nat
  pending : List Byte
  incoming : List (List Byte)
  trace : List Event

/-- The load `p[i]`. -/
def State.peek (s : State) (p : Ptr) (i : Nat) : Byte :=
  s.mem p.region (p.off + i)

/-- The loads `p[0], ..., p[n-1]`. -/
def State.peekN (s : State) (p : Ptr) (n : Nat) : List Byte :=
  (List.range n).map (s.peek p)

/-- The store `p[i] = b`. -/
def State.poke (s : State) (p : Ptr) (i : Nat) (b : Byte) : State :=
  { s with mem := fun r j => if r = p.region ∧ j = p.off + i then b else s.mem r j }

/-- The stores `p[i] = b0, p[i+1] = b1, ...` for the bytes of a list. -/
def State.pokeFrom (p : Ptr) : List Byte → Nat → State → State
  | [], _, s => s
  | b :: bs, i, s => State.pokeFrom p bs (i + 1) (s.poke p i b)

/-- The hook `uc_bytes_available`: the number of bytes pending in the source. -/
def uc_bytes_available (s : State) : Nat :=
  s.pending.length

/-- The hook `uc_getch`: takes the oldest pending byte. The source calls it
only after `uc_bytes_available` has reported enough bytes; on an empty queue
the hook is left to the transport, and the value 0 stands for what it gives. -/
def uc_getch (s : State) : Byte × State :=
  match s.pending with
  | [] => (0, s)
  | b :: rest => (b, { s with pending := rest })

/-- The hook `uc_delay`: time passes, the next scheduled burst arrives. -/
def uc_delay (ms : Nat) (s : State) : State :=
  { s with
    pending := s.pending ++ s.incoming.headD []
    incoming := s.incoming.tail
    trace := s.trace ++ [Event.uc_delay ms] }

/-- The hook `uc_send(data, data_len)`. -/
def uc_send (data : Ptr) (data_len : Nat) (s : State) : State :=
  { s with trace := s.trace ++ [Event.uc_send (s.peekN data data_len)] }

/-- The hook `uc_reset_buffers`: the transport clears its receive side. -/
def uc_reset_buffers (env : Env) (s : State) : State :=
  { s with
    pending := env.uc_reset_buffers s.pending
    trace := s.trace ++ [Event.uc_reset_buffers] }

/-- The hook `uc_reset`. -/
def uc_reset (s : State) : State :=
  { s with trace := s.trace ++ [Event.uc_reset] }

/-- The function `fsm_get_checksum_struct`: the strategy of the class of the
current `major_key`. -/
def fsm_get_checksum_struct (env : Env) (s : State) : checksum_struct :=
  if s.major_key = env.GUI_TYPE_IO then env.io_checksum
  else if s.major_key = env.GUI_TYPE_DATA_TRANSMIT then env.data_transfer_checksum
  else if s.major_key = env.GUI_TYPE_PROGRAMMER then env.programmer_checksum
  else env.default_checksum

/-- The `while` loop of `fsm_read_next`: poll until `num_bytes` bytes are
available, `none` when the fuel ends first. `wait_time` is a `uint32_t`. -/
def fsm_read_next_wait (num_bytes timeout : Nat) : Nat → Nat → State → Option (Bool × State)
  | 0, _, s => if uc_bytes_available s < num_bytes then none else some (true, s)
  | fuel + 1, wait_time, s =>
    if uc_bytes_available s < num_bytes then
      let s1 := uc_delay check_delay s
      let wait_time1 := (wait_time + check_delay) % UINT32_MOD
      if timeout < wait_time1 then some (false, s1)
      else fsm_read_next_wait num_bytes timeout fuel wait_time1 s1
    else some (true, s)

/-- The `for` loop of `fsm_read_next`: `data_array[i] = uc_getch()` for the
`n` indices from `i` on. -/
def fsm_read_next_copy (data_array : Ptr) : Nat → Nat → State → State
  | 0, _, s => s
  | n + 1, i, s =>
    let r := uc_getch s
    fsm_read_next_copy data_array n (i + 1) (r.2.poke data_array i r.1)

/-- The function `fsm_read_next(data_array, num_bytes, timeout)`. -/
def fsm_read_next (fuel : Nat) (data_array : Ptr) (num_bytes timeout : Nat) (s : State) :
    Option (Bool × State) :=
  match fsm_read_next_wait num_bytes timeout fuel 0 s with
  | none => none
  | some (false, s1) => some (false, s1)
  | some (true, s1) => some (true, fsm_read_next_copy data_array num_bytes 0 s1)

/-- The function `fsm_check_checksum(data, data_len, checksum_cmp)`. -/
def fsm_check_checksum (env : Env) (data : Ptr) (data_len : Nat) (checksum_cmp : Ptr)
    (s : State) : Bool × State :=
  let check := fsm_get_checksum_struct env s
  let checksum_size := check.get_checksum_size
  let checksum_start : List Byte := List.replicate checksum_size 0
  let s1 := State.pokeFrom ⟨Region.fsm_checksum_cmp_buffer, 0⟩
    (check.get_checksum (s.peekN data data_len) checksum_start) 0 s
  (check.check_checksum (s1.peekN checksum_cmp checksum_size)
    (s1.peekN ⟨Region.fsm_checksum_cmp_buffer, 0⟩ checksum_size), s1)

/-- The function `fsm_send(data, data_len)`. -/
def fsm_send (env : Env) (data : Ptr) (data_len : Nat) (s : State) : State :=
  let check := fsm_get_checksum_struct env s
  let checksum_size := check.get_checksum_size
  let checksum_start : List Byte := List.replicate checksum_size 0
  let s1 := State.pokeFrom ⟨Region.fsm_checksum_buffer, 0⟩
    (check.get_checksum (s.peekN data data_len) checksum_start) 0 s
  let s2 := uc_send data data_len s1
  uc_send ⟨Region.fsm_checksum_buffer, 0⟩ checksum_size s2

/-- The function `fsm_ack(ack_key)`. -/
def fsm_ack (env : Env) (ack_key : Byte) (s : State) : State :=
  let s1 := s.poke ⟨Region.fsm_ack_buffer, 0⟩ s1_major_key_loc env.MAJOR_KEY_ACK
  let s2 := s1.poke ⟨Region.fsm_ack_buffer, 0⟩ s1_num_s2_bytes_loc ack_key
  fsm_send env ⟨Region.fsm_ack_buffer, 0⟩ num_s1_bytes s2

/-- The function `fsm_run`: the handlers receive `fsm_buffer_ptr` and
`num_s2_bytes`; the event keeps the bytes the handler can read there. -/
def fsm_run (env : Env) (s : State) : State :=
  let buffer := s.peekN ⟨Region.fsm_buffer, s.fsm_buffer_ptr⟩ s.num_s2_bytes.val
  if s.major_key = env.GUI_TYPE_IO then
    { s with trace := s.trace ++ [Event.uc_io buffer s.num_s2_bytes.val] }
  else if s.major_key = env.GUI_TYPE_DATA_TRANSMIT then
    { s with trace := s.trace ++ [Event.uc_data_transmit buffer s.num_s2_bytes.val] }
  else if s.major_key = env.GUI_TYPE_PROGRAMMER then
    { s with trace := s.trace ++ [Event.uc_programmer buffer s.num_s2_bytes.val] }
  else uc_reset s

/-- The statements that follow a successful stage-one read, the same in
`fsm_poll` and in `fsm_isr`: `fsm_buffer_ptr += num_s1_bytes`,
`major_key = fsm_buffer[s1_major_key_loc]` and
`num_s2_bytes = fsm_buffer[s1_num_s2_bytes_loc]`. -/
def fsm_store_s1 (s : State) : State :=
  let s2 := { s with fsm_buffer_ptr := s.fsm_buffer_ptr + num_s1_bytes }
  { s2 with
    major_key := s2.mem Region.fsm_buffer s1_major_key_loc
    num_s2_bytes := s2.mem Region.fsm_buffer s1_num_s2_bytes_loc }

/-- Where one pass through the body of the `while (true)` of `fsm_poll` ends:
at one of its four `continue` statements or after `fsm_run`. -/
inductive PollExit where
  | header_timeout
  | payload_timeout
  | checksum_timeout
  | checksum_mismatch
  | dispatched
  deriving DecidableEq, Repr

/-- One pass through the body of the `while (true)` of `fsm_poll`. -/
def fsm_poll_iteration (env : Env) (fuel : Nat) (s : State) : Option (PollExit × State) :=
  let s0 := { s with fsm_buffer_ptr := 0 }
  match fsm_read_next fuel ⟨Region.fsm_buffer, s0.fsm_buffer_ptr⟩ num_s1_bytes
      env.packet_timeout s0 with
  | none => none
  | some (false, s1) => some (PollExit.header_timeout, s1)
  | some (true, s1) =>
    let s3 := fsm_store_s1 s1
    match fsm_read_next fuel ⟨Region.fsm_buffer, s3.fsm_buffer_ptr⟩ s3.num_s2_bytes.val
        env.packet_timeout s3 with
    | none => none
    | some (false, s4) =>
      some (PollExit.payload_timeout, uc_reset_buffers env (fsm_ack env env.MAJOR_KEY_ERROR s4))
    | some (true, s4) =>
      let checksum_size := (fsm_get_checksum_struct env s4).get_checksum_size
      match fsm_read_next fuel ⟨Region.fsm_checksum_buffer, 0⟩ checksum_size
          env.packet_timeout s4 with
      | none => none
      | some (false, s5) =>
        some (PollExit.checksum_timeout,
          uc_reset_buffers env (fsm_ack env env.MAJOR_KEY_ERROR s5))
      | some (true, s5) =>
        let r := fsm_check_checksum env ⟨Region.fsm_buffer, 0⟩
          (num_s1_bytes + s5.num_s2_bytes.val) ⟨Region.fsm_checksum_buffer, 0⟩ s5
        if r.1 = false then
          some (PollExit.checksum_mismatch,
            uc_reset_buffers env (fsm_ack env env.MAJOR_KEY_ERROR r.2))
        else
          some (PollExit.dispatched, fsm_run env (fsm_ack env s5.major_key r.2))

/-- The function `fsm_poll`, cut after `n` passes through its loop; the list
holds the exits of the passes in order. -/
def fsm_poll (env : Env) (fuel : Nat) : Nat → State → Option (List PollExit × State)
  | 0, s => some ([], s)
  | n + 1, s =>
    match fsm_poll_iteration env fuel s with
    | none => none
    | some (e, s1) =>
      match fsm_poll env fuel n s1 with
      | none => none
      | some (es, s2) => some (e :: es, s2)

/-- The function `fsm_isr`. -/
def fsm_isr (env : Env) (fuel : Nat) (s : State) : Option (Bool × State) :=
  if s.curr_packet_stage = 1 then
    if uc_bytes_available s = num_s1_bytes then
      let s0 := { s with fsm_buffer_ptr := 0 }
      match fsm_read_next fuel ⟨Region.fsm_buffer, s0.fsm_buffer_ptr⟩ num_s1_bytes 0 s0 with
      | none => none
      | some (false, s1) => some (false, s1)
      | some (true, s1) =>
        let s3 := fsm_store_s1 s1
        if s3.num_s2_bytes = 0 then some (false, { s3 with curr_packet_stage := 3 })
        else some (false, { s3 with curr_packet_stage := 2 })
    else some (false, s)
  else if s.curr_packet_stage = 2 then
    if uc_bytes_available s = s.num_s2_bytes.val then
      match fsm_read_next fuel ⟨Region.fsm_buffer, s.fsm_buffer_ptr⟩ s.num_s2_bytes.val 0 s with
      | none => none
      | some (false, s1) => some (false, s1)
      | some (true, s1) => some (false, { s1 with curr_packet_stage := 3 })
    else some (false, s)
  else if s.curr_packet_stage = 3 then
    let checksum_size := (fsm_get_checksum_struct env s).get_checksum_size
    if uc_bytes_available s = checksum_size then
      match fsm_read_next fuel ⟨Region.fsm_checksum_buffer, 0⟩ checksum_size 0 s with
      | none => none
      | some (false, s1) => some (false, s1)
      | some (true, s1) =>
        let r := fsm_check_checksum env ⟨Region.fsm_buffer, 0⟩
          (num_s1_bytes + s1.num_s2_bytes.val) ⟨Region.fsm_checksum_buffer, 0⟩ s1
        if r.1 = false then
          some (false, uc_reset_buffers env (fsm_ack env env.MAJOR_KEY_ERROR r.2))
        else
          let s2 := fsm_ack env s1.major_key r.2
          some (true, { s2 with curr_packet_stage := 1 })
    else some (false, s)
  else
    some (false, uc_reset_buffers env { s with curr_packet_stage := 1 })

/-- Modelled from the spec: the caller of the incremental engine is not in
the source. One tick of it: the burst that arrived since the last tick is
pending, `fsm_isr` is called, and after a `true` result the caller invokes the
dispatcher `fsm_run` itself. -/
def isr_tick (env : Env) (fuel : Nat) (burst : List Byte) (s : State) : Option State :=
  match fsm_isr env fuel { s with pending := s.pending ++ burst } with
  | none => none
  | some (true, s1) => some (fsm_run env s1)
  | some (false, s1) => some s1

/-- Modelled from the spec: the ticks of the caller of the incremental engine,
one per burst of the schedule. -/
def isr_ticks (env : Env) (fuel : Nat) : List (List Byte) → State → Option State
  | [], s => some s
  | burst :: rest, s =>
    match isr_tick env fuel burst s with
    | none => none
    | some s1 => isr_ticks env fuel rest s1

/-- Whether an event is a frame written to the transport or a dispatch: what
a peer and the application see of the engine. -/
def Event.is_output : Event → Bool
  | .uc_delay _ => false
  | .uc_reset_buffers => false
  | _ => true

/-- The frames sent and the dispatches made, in order. -/
def outputs (trace : List Event) : List Event :=
  trace.filter Event.is_output

/-- One shift step of a bitwise CRC-8 with polynomial `0x07`. -/
def crc_8_shift (crc : Nat) : Nat :=
  if crc &&& 0x80 = 0 then (crc <<< 1) % 256 else ((crc <<< 1) ^^^ 0x07) % 256

/-- The CRC-8 register after one more data byte. -/
def crc_8_update (crc : Nat) (b : Byte) : Nat :=
  crc_8_shift^[8] (crc ^^^ b.val)

/-- A sample strategy, used to run the engine on concrete inputs: an 8-bit
CRC (polynomial `0x07`) seeded with the start value, verified by equality. -/
def crc_8 : checksum_struct where
  get_checksum_size := 1
  get_checksum := fun data start =>
    [Fin.ofNat (data.foldl crc_8_update (start.headD 0).val)]
  check_checksum := fun a b => a == b
  size_ok := fun _ _ => rfl

/-- A second sample strategy: the 8-bit sum of the start value and the data,
verified by equality. -/
def sum_8 : checksum_struct where
  get_checksum_size := 1
  get_checksum := fun data start => [data.foldl (fun a b => a + b) (start.headD 0)]
  check_checksum := fun a b => a == b
  size_ok := fun _ _ => rfl

/-- A sample environment: six distinct keys, a one-second packet timeout, the
CRC-8 for all four classes (the default of the source), and a transport whose
`uc_reset_buffers` drops the pending bytes. -/
def sample_env : Env where
  MAJOR_KEY_ERROR := 0
  MAJOR_KEY_RESET := 1
  MAJOR_KEY_ACK := 2
  GUI_TYPE_IO := 3
  GUI_TYPE_DATA_TRANSMIT := 4
  GUI_TYPE_PROGRAMMER := 5
  packet_timeout := 1000
  io_checksum := crc_8
  data_transfer_checksum := crc_8
  programmer_checksum := crc_8
  default_checksum := crc_8
  uc_reset_buffers := fun _ => []
  keys_nodup := by decide

/-- The sample environment with the strategy of the IO class replaced by the
8-bit sum (the source invites the integrator to replace a class's checksum). -/
def mixed_env : Env :=
  { sample_env with io_checksum := sum_8 }

/-- The engine right after start-up on an idle link: stage 1, zeroed buffers,
nothing pending, nothing scheduled, nothing recorded. -/
def idle_state : State where
  mem := fun _ _ => 0
  num_s2_bytes := 0
  major_key := 0
  curr_packet_stage := 1
  checksum_max_size := 1
  fsm_buffer_ptr := 0
  pending := []
  incoming := []
  trace := []

/-- The checksum bytes of a frame under a strategy: computed over the frame
from a zero-filled start value, as `fsm_send` and `fsm_check_checksum` do. -/
def frame_checksum (c : checksum_struct) (frame : List Byte) : List Byte :=
  c.get_checksum frame (List.replicate c.get_checksum_size 0)

/-- The strategy of the class of a key: what `fsm_get_checksum_struct` answers
while the context's `major_key` is that key. -/
def checksum_of_key (env : Env) (key : Byte) : checksum_struct :=
  if key = env.GUI_TYPE_IO then env.io_checksum
  else if key = env.GUI_TYPE_DATA_TRANSMIT then env.data_transfer_checksum
  else if key = env.GUI_TYPE_PROGRAMMER then env.programmer_checksum
  else env.default_checksum

/-- An ACK frame on the transport: the two bytes `{MAJOR_KEY_ACK, ack_key}`,
then their checksum under the strategy `c`. -/
def ack_frame (env : Env) (c : checksum_struct) (ack_key : Byte) : List Event :=
  [Event.uc_send [env.MAJOR_KEY_ACK, ack_key],
   Event.uc_send (frame_checksum c [env.MAJOR_KEY_ACK, ack_key])]

/-- The call `fsm_run` makes for a key and a payload: the handler of the key
with the payload and its length, `uc_reset` for any other key. -/
def dispatch_event (env : Env) (key : Byte) (payload : List Byte) : Event :=
  if key = env.GUI_TYPE_IO then Event.uc_io payload payload.length
  else if key = env.GUI_TYPE_DATA_TRANSMIT then Event.uc_data_transmit payload payload.length
  else if key = env.GUI_TYPE_PROGRAMMER then Event.uc_programmer payload payload.length
  else Event.uc_reset

/-- The state after `k` calls of `uc_delay(check_delay)`: the first `k` bursts
of the schedule have joined the pending bytes, nothing else has changed. -/
def after_delays (k : Nat) (s : State) : State :=
  { s with
    pending := s.pending ++ (s.incoming.take k).flatten
    incoming := s.incoming.drop k
    trace := s.trace ++ List.replicate k (Event.uc_delay check_delay) }

/-- A state of the incremental engine in stage 3: the header `{3, 0}` of an
IO packet without payload is buffered, and the one byte pending, `99`, is not
the CRC-8 of that header (which is `63`). -/
def corrupt_trailer_state : State :=
  { idle_state with
    mem := fun r j => if r = Region.fsm_buffer ∧ j = 0 then 3 else 0
    major_key := 3
    num_s2_bytes := 0
    curr_packet_stage := 3
    fsm_buffer_ptr := 2
    pending := [99] }

/-- A byte stream of two wire-format packets, each stage as one burst: the IO
packet `{3, 1}` with payload `[7]` and the corrupt trailer `99`, then the same
packet with its CRC-8 trailer `189`. -/
def corrupt_then_valid : List (List Byte) :=
  [[3, 1], [7], [99], [3, 1], [7], [189]]

/-- The function `fsm_setup(buffer_len)`: `major_key` and the stage get their
start values, `checksum_max_size` becomes the largest of the four checksum
sizes, the buffers are allocated (their contents are whatever `malloc` gives:
the byte maps stay as they are), and `uc_reset` is called. -/
def fsm_setup (env : Env) (buffer_len : Nat) (s : State) : State :=
  let s1 := { s with major_key := env.MAJOR_KEY_ERROR, curr_packet_stage := 1 }
  let m0 := env.default_checksum.get_checksum_size
  let m1 := if m0 < env.io_checksum.get_checksum_size
    then env.io_checksum.get_checksum_size else m0
  let m2 := if m1 < env.data_transfer_checksum.get_checksum_size
    then env.data_transfer_checksum.get_checksum_size else m1
  let m3 := if m2 < env.programmer_checksum.get_checksum_size
    then env.programmer_checksum.get_checksum_size else m2
  let _allocated := buffer_len
  uc_reset { s1 with checksum_max_size := m3 }

/-- The byte count a call of `fsm_isr` compares `uc_bytes_available()` with in
stages 1, 2 and 3: `num_s1_bytes`, `num_s2_bytes`, and the checksum size of
the class of the current `major_key`. -/
def isr_expected (env : Env) (s : State) : Nat :=
  if s.curr_packet_stage = 1 then num_s1_bytes
  else if s.curr_packet_stage = 2 then s.num_s2_bytes.val
  else (fsm_get_checksum_struct env s).get_checksum_size

/-! ## The byte-array helpers of `gui-helper.cpp` -/

/-- The loop of `GUI_HELPER::byteArray_to_uint32`:
`for (i = 0; (i < 4) && (i < data_len); i++) ret_data = (ret_data << 8) | data.at(i)`
with `ret_data` a `uint32_t`. The first argument bounds the passes; four are
enough, since the loop ends when `i` reaches 4. -/
def GUI_HELPER.byteArray_to_uint32_loop (data : List Byte) (data_len : Nat) :
    Nat → Nat → Nat → Nat
  | 0, _, ret_data => ret_data
  | passes + 1, i, ret_data =>
    if i < 4 ∧ i < data_len then
      GUI_HELPER.byteArray_to_uint32_loop data data_len passes (i + 1)
        (((ret_data <<< 8) % UINT32_MOD) ||| (data.getD i 0).val)
    else ret_data

/-- The function `GUI_HELPER::byteArray_to_uint32(data)`. The local
`data_len` is a `uint8_t`: it holds `data.length()` modulo 256. -/
def GUI_HELPER.byteArray_to_uint32 (data : List Byte) : Nat :=
  let data_len := data.length % 256
  GUI_HELPER.byteArray_to_uint32_loop data data_len 4 0 0

/-- The loop of `GUI_HELPER::uint32_to_byteArray`, `passes` times:
`ret_data.prepend((char) (data & 0xFF)); data = data >> 8`. -/
def GUI_HELPER.uint32_to_byteArray_loop : Nat → Nat → List Byte → List Byte
  | 0, _, ret_data => ret_data
  | passes + 1, data, ret_data =>
    GUI_HELPER.uint32_to_byteArray_loop passes (data >>> 8)
      (Fin.ofNat (data &&& 0xFF) :: ret_data)

/-- The function `GUI_HELPER::uint32_to_byteArray(data)`; the argument is a
`uint32_t`. -/
def GUI_HELPER.uint32_to_byteArray (data : Nat) : List Byte :=
  GUI_HELPER.uint32_to_byteArray_loop 4 (data % UINT32_MOD) []

/-- The big-endian value of a byte string. -/
def big_endian (bytes : List Byte) : Nat :=
  bytes.foldl (fun acc b => acc * 256 + b.val) 0

/-- The character `QString::number` writes for the digit `d`: `0` to `9`,
then `a` to `z`. -/
def digit_char (d : Nat) : Byte :=
  if d < 10 then Fin.ofNat (48 + d) else Fin.ofNat (87 + d)

/-- What `encode_byteArray` and `decode_byteArray` take from the Qt library,
which is not part of the repository.
* `number n base` is the text of `QString::number(n, base)`.
* `char_bytes c` is what `ret_data += QString + c` appends for the `char` `c`.
* `toInt text base` is `QString(text).toInt(nullptr, base)`. -/
structure Qt where
  number : Nat → Nat → List Byte
  char_bytes : Byte → List Byte
  toInt : List Byte → Nat → Int

/-- The part of Qt's documented behaviour that the two functions rest on: for
a byte value and a base from 2 to 36 `number` writes digits of that base and
`toInt` reads them back; `toInt` gives 0 for the empty string (a failed
conversion); an ASCII `char` is appended as the byte itself. -/
structure Qt.Documented (qt : Qt) : Prop where
  number_digits : ∀ n base, n < 256 → 2 ≤ base → base ≤ 36 →
    ∀ b ∈ qt.number n base, ∃ d, d < base ∧ b = digit_char d
  toInt_number : ∀ n base, n < 256 → 2 ≤ base → base ≤ 36 →
    qt.toInt (qt.number n base) base = (n : Int)
  toInt_empty : ∀ base, qt.toInt [] base = 0
  char_ascii : ∀ c : Byte, c.val < 128 → qt.char_bytes c = [c]

/-- The cast `(char)` of an `int`: its low eight bits. -/
def int_to_char (i : Int) : Byte :=
  Fin.ofNat (i % 256).toNat

/-- The function `QByteArray::split(sep)`: the parts between the occurrences
of `sep`, empty parts included; an array without `sep` is one part. -/
def QByteArray_split (sep : Byte) : List Byte → List (List Byte)
  | [] => [[]]
  | b :: rest =>
    if b = sep then [] :: QByteArray_split sep rest
    else
      match QByteArray_split sep rest with
      | [] => [[b]]
      | part :: parts => (b :: part) :: parts

/-- The function `GUI_HELPER::encode_byteArray(data, base, sep)`. -/
def GUI_HELPER.encode_byteArray (qt : Qt) (data : List Byte) (base sep : Byte) : List Byte :=
  if base = 0 then data
  else data.flatMap (fun elem => qt.number elem.val base.val ++ qt.char_bytes sep)

/-- The function `GUI_HELPER::decode_byteArray(data, base, sep)`. -/
def GUI_HELPER.decode_byteArray (qt : Qt) (data : List Byte) (base sep : Byte) : List Byte :=
  if base = 0 then data
  else (QByteArray_split sep data).map (fun elem => int_to_char (qt.toInt elem base.val))

/-- The digits of `n` in `base`, most significant first, in front of `acc`;
the first argument bounds the number of digits. -/
def digits_loop (base : Nat) : Nat → Nat → List Byte → List Byte
  | 0, _, acc => acc
  | fuel + 1, n, acc =>
    if n / base = 0 then digit_char (n % base) :: acc
    else digits_loop base fuel (n / base) (digit_char (n % base) :: acc)

/-- The value of a digit character: `0` to `9`, `a` to `z`, `A` to `Z`. -/
def digit_value (b : Byte) : Option Nat :=
  if 48 ≤ b.val ∧ b.val ≤ 57 then some (b.val - 48)
  else if 97 ≤ b.val ∧ b.val ≤ 122 then some (b.val - 87)
  else if 65 ≤ b.val ∧ b.val ≤ 90 then some (b.val - 55)
  else none

/-- The value of a string of digits of `base` read after the value `acc`;
`none` when a character is not a digit of the base. -/
def parse_digits (base : Nat) : List Byte → Nat → Option Nat
  | [], acc => some acc
  | b :: rest, acc =>
    match digit_value b with
    | some d => if d < base then parse_digits base rest (acc * base + d) else none
    | none => none

/-- A text-to-number conversion on strings of digits: the value of a
non-empty string of digits of the base that fits an `int`, and 0 otherwise. -/
def digits_toInt (text : List Byte) (base : Nat) : Int :=
  match text with
  | [] => 0
  | _ :: _ =>
    match parse_digits base text 0 with
    | some v => if v < 2 ^ 31 then (v : Int) else 0
    | none => 0

/-- A model of the three Qt functions, used to run the helpers on concrete
inputs: `number` writes the digits of the value (Qt falls back to base 10 for
a base outside 2 to 36), a `char` is appended as the UTF-8 form of the Latin-1
character, and `toInt` reads strings of digits. -/
def qt_ascii : Qt where
  number := fun n base =>
    digits_loop (if base < 2 ∨ 36 < base then 10 else base) (n + 1) n []
  char_bytes := fun c =>
    if c.val < 128 then [c]
    else [Fin.ofNat (0xC0 + c.val / 64), Fin.ofNat (0x80 + c.val % 64)]
  toInt := digits_toInt

/-! ## Memory -/

@[simp] theorem poke_num_s2_bytes (s : State) (p : Ptr) (i : Nat) (b : Byte) :
    (s.poke p i b).num_s2_bytes = s.num_s2_bytes := rfl

@[simp] theorem poke_major_key (s : State) (p : Ptr) (i : Nat) (b : Byte) :
    (s.poke p i b).major_key = s.major_key := rfl

@[simp] theorem poke_curr_packet_stage (s : State) (p : Ptr) (i : Nat) (b : Byte) :
    (s.poke p i b).curr_packet_stage = s.curr_packet_stage := rfl

@[simp] theorem poke_pending (s : State) (p : Ptr) (i : Nat) (b : Byte) :
    (s.poke p i b).pending = s.pending := rfl

@[simp] theorem poke_trace (s : State) (p : Ptr) (i : Nat) (b : Byte) :
    (s.poke p i b).trace = s.trace := rfl

/-- The stores of `pokeFrom` as one update of the memory. -/
theorem pokeFrom_eq (p : Ptr) (bs : List Byte) (i : Nat) (s : State) :
    State.pokeFrom p bs i s =
      { s with mem := fun r j =>
          if r = p.region ∧ p.off + i ≤ j ∧ j < p.off + i + bs.length
          then bs.getD (j - (p.off + i)) 0 else s.mem r j } := by
  induction bs generalizing i s with
  | nil =>
    simp only [State.pokeFrom, List.length_nil, Nat.add_zero]
    apply State.ext <;> try rfl
    funext r j
    have : ¬ (r = p.region ∧ p.off + i ≤ j ∧ j < p.off + i) := by omega
    simp [this]
  | cons b bs ih =>
    simp only [State.pokeFrom, ih, List.length_cons]
    apply State.ext <;> try rfl
    funext r j
    simp only [State.poke]
    by_cases hr : r = p.region
    · by_cases h0 : j = p.off + i
      · subst h0
        simp [hr]
      · by_cases h1 : p.off + (i + 1) ≤ j ∧ j < p.off + (i + 1) + bs.length
        · have h2 : p.off + i ≤ j ∧ j < p.off + i + (bs.length + 1) := by omega
          have h3 : j - (p.off + i) = (j - (p.off + (i + 1))) + 1 := by omega
          simp only [hr, h1, h2, true_and, and_self, if_true]
          rw [h3, List.getD_cons_succ]
        · have h2 : ¬ (p.off + i ≤ j ∧ j < p.off + i + (bs.length + 1)) := by omega
          simp only [hr, h0, h1, h2, true_and, and_false, if_false]
    · simp [hr]

@[simp] theorem pokeFrom_num_s2_bytes (p : Ptr) (bs : List Byte) (i : Nat) (s : State) :
    (State.pokeFrom p bs i s).num_s2_bytes = s.num_s2_bytes := by rw [pokeFrom_eq]

@[simp] theorem pokeFrom_major_key (p : Ptr) (bs : List Byte) (i : Nat) (s : State) :
    (State.pokeFrom p bs i s).major_key = s.major_key := by rw [pokeFrom_eq]

@[simp] theorem pokeFrom_curr_packet_stage (p : Ptr) (bs : List Byte) (i : Nat) (s : State) :
    (State.pokeFrom p bs i s).curr_packet_stage = s.curr_packet_stage := by rw [pokeFrom_eq]

@[simp] theorem pokeFrom_checksum_max_size (p : Ptr) (bs : List Byte) (i : Nat) (s : State) :
    (State.pokeFrom p bs i s).checksum_max_size = s.checksum_max_size := by rw [pokeFrom_eq]

@[simp] theorem pokeFrom_fsm_buffer_ptr (p : Ptr) (bs : List Byte) (i : Nat) (s : State) :
    (State.pokeFrom p bs i s).fsm_buffer_ptr = s.fsm_buffer_ptr := by rw [pokeFrom_eq]

@[simp] theorem pokeFrom_pending (p : Ptr) (bs : List Byte) (i : Nat) (s : State) :
    (State.pokeFrom p bs i s).pending = s.pending := by rw [pokeFrom_eq]

@[simp] theorem pokeFrom_incoming (p : Ptr) (bs : List Byte) (i : Nat) (s : State) :
    (State.pokeFrom p bs i s).incoming = s.incoming := by rw [pokeFrom_eq]

@[simp] theorem pokeFrom_trace (p : Ptr) (bs : List Byte) (i : Nat) (s : State) :
    (State.pokeFrom p bs i s).trace = s.trace := by rw [pokeFrom_eq]

/-- A store leaves the other buffers as they were. -/
theorem pokeFrom_mem_other (p : Ptr) (bs : List Byte) (i : Nat) (s : State) (r : Region)
    (j : Nat) (h : r ≠ p.region) : (State.pokeFrom p bs i s).mem r j = s.mem r j := by
  rw [pokeFrom_eq]
  simp [h]

/-- A store leaves the bytes outside its range as they were. -/
theorem pokeFrom_mem_outside (p : Ptr) (bs : List Byte) (i : Nat) (s : State) (j : Nat)
    (h : j < p.off + i ∨ p.off + i + bs.length ≤ j) :
    (State.pokeFrom p bs i s).mem p.region j = s.mem p.region j := by
  rw [pokeFrom_eq]
  have : ¬ (p.off + i ≤ j ∧ j < p.off + i + bs.length) := by omega
  simp [this]

/-- Reading back what `pokeFrom` stored. -/
theorem peekN_pokeFrom (p : Ptr) (bs : List Byte) (s : State) :
    (State.pokeFrom p bs 0 s).peekN p bs.length = bs := by
  rw [pokeFrom_eq]
  apply List.ext_getElem
  · simp [State.peekN]
  · intro k h1 h2
    simp only [State.peekN, List.length_map, List.length_range] at h1
    simp [State.peekN, State.peek, h1, List.getD_eq_getElem]

/-- Loads from a buffer that a store did not touch. -/
theorem peekN_pokeFrom_other (p q : Ptr) (bs : List Byte) (i : Nat) (s : State) (n : Nat)
    (h : q.region ≠ p.region) : (State.pokeFrom p bs i s).peekN q n = s.peekN q n := by
  simp only [State.peekN, State.peek]
  apply List.map_congr_left
  intro k _
  exact pokeFrom_mem_other p bs i s q.region (q.off + k) h

/-! ## The packet reader -/

theorem after_delays_zero (s : State) : after_delays 0 s = s := by
  apply State.ext <;> simp [after_delays]

theorem after_delays_succ (k : Nat) (s : State) :
    after_delays (k + 1) s = after_delays k (uc_delay check_delay s) := by
  apply State.ext <;> try rfl
  · cases h : s.incoming <;> simp [after_delays, uc_delay, h]
  · cases h : s.incoming <;> simp [after_delays, uc_delay, h]
  · simp [after_delays, uc_delay, List.replicate_succ]

/-- What the polling loop of `fsm_read_next` can answer: it has made some
number `k` of delays, at most the fuel, and changed nothing else; `true` means
the bytes are there, `false` comes only after a delay. -/
theorem fsm_read_next_wait_some (n T : Nat) :
    ∀ (fuel w : Nat) (s : State) (r : Bool) (s' : State),
      fsm_read_next_wait n T fuel w s = some (r, s') →
      ∃ k, k ≤ fuel ∧ s' = after_delays k s ∧ (r = true → n ≤ s'.pending.length) ∧
        (r = false → 0 < k) := by
  intro fuel
  induction fuel with
  | zero =>
    intro w s r s' h
    simp only [fsm_read_next_wait, uc_bytes_available] at h
    split at h
    · cases h
    · rename_i hlt
      simp only [Option.some.injEq, Prod.mk.injEq] at h
      obtain ⟨rfl, rfl⟩ := h
      exact ⟨0, le_refl _, (after_delays_zero _).symm, fun _ => by omega, (fun h => by cases h)⟩
  | succ fuel ih =>
    intro w s r s' h
    simp only [fsm_read_next_wait, uc_bytes_available] at h
    split at h
    · split at h
      · simp only [Option.some.injEq, Prod.mk.injEq] at h
        obtain ⟨rfl, rfl⟩ := h
        refine ⟨1, by omega, ?_, (fun h => by cases h), fun _ => by omega⟩
        rw [after_delays_succ, after_delays_zero]
      · obtain ⟨k, hk, hs, ht, hf⟩ := ih _ _ _ _ h
        refine ⟨k + 1, by omega, ?_, ht, fun _ => by omega⟩
        rw [after_delays_succ]
        exact hs
    · rename_i hlt
      simp only [Option.some.injEq, Prod.mk.injEq] at h
      obtain ⟨rfl, rfl⟩ := h
      exact ⟨0, by omega, (after_delays_zero _).symm, fun _ => by omega, (fun h => by cases h)⟩

/-- The copy loop of `fsm_read_next` on a source that holds the bytes: it takes
the first `n` pending bytes and stores them from index `i` on. -/
theorem fsm_read_next_copy_eq (p : Ptr) :
    ∀ (n i : Nat) (s : State), n ≤ s.pending.length →
      fsm_read_next_copy p n i s =
        State.pokeFrom p (s.pending.take n) i { s with pending := s.pending.drop n } := by
  intro n
  induction n with
  | zero =>
    intro i s _
    simp [fsm_read_next_copy, State.pokeFrom]
  | succ n ih =>
    intro i s h
    cases hp : s.pending with
    | nil => rw [hp] at h; simp at h
    | cons b rest =>
      rw [hp] at h
      simp only [List.length_cons, Nat.add_le_add_iff_right] at h
      simp only [fsm_read_next_copy, uc_getch, hp, List.take_succ_cons, List.drop_succ_cons,
        State.pokeFrom]
      rw [ih (i + 1) _ (by simpa using h)]
      rfl

/-- What `fsm_read_next` can answer: after `k` delays either `false`, with
nothing but the delays done, or `true`, with the first `n` pending bytes taken
from the source and stored at the destination. -/
theorem fsm_read_next_some (fuel : Nat) (dest : Ptr) (n T : Nat) (s : State) (r : Bool)
    (s' : State) (h : fsm_read_next fuel dest n T s = some (r, s')) :
    ∃ k, k ≤ fuel ∧
      ((r = false ∧ 0 < k ∧ s' = after_delays k s) ∨
       (r = true ∧ n ≤ (after_delays k s).pending.length ∧
        s' = State.pokeFrom dest ((after_delays k s).pending.take n) 0
          { after_delays k s with pending := (after_delays k s).pending.drop n })) := by
  unfold fsm_read_next at h
  split at h
  · cases h
  · rename_i s1 hw
    simp only [Option.some.injEq, Prod.mk.injEq] at h
    obtain ⟨rfl, rfl⟩ := h
    obtain ⟨k, hk, hs, _, hf⟩ := fsm_read_next_wait_some n T fuel 0 s _ _ hw
    exact ⟨k, hk, Or.inl ⟨rfl, hf rfl, hs⟩⟩
  · rename_i s1 hw
    simp only [Option.some.injEq, Prod.mk.injEq] at h
    obtain ⟨rfl, rfl⟩ := h
    obtain ⟨k, hk, hs, ht, _⟩ := fsm_read_next_wait_some n T fuel 0 s _ _ hw
    subst hs
    exact ⟨k, hk, Or.inr ⟨rfl, ht rfl, fsm_read_next_copy_eq dest n 0 _ (ht rfl)⟩⟩

/-- The wrap-around of `wait_time` does not occur below the timeout. -/
theorem wait_time_no_wrap (T w : Nat) (hT : T + check_delay < UINT32_MOD) (hw : w ≤ T) :
    (w + check_delay) % UINT32_MOD = w + check_delay :=
  Nat.mod_eq_of_lt (by omega)

/-- With a timeout that `wait_time` can exceed without wrapping, the polling
loop ends within `timeout / check_delay + 1` delays. -/
theorem fsm_read_next_wait_total (n T : Nat) (hT : T + check_delay < UINT32_MOD) :
    ∀ (d w fuel : Nat) (s : State), w ≤ T → (T - w) / check_delay = d → d < fuel →
      (fsm_read_next_wait n T fuel w s).isSome = true := by
  intro d
  induction d with
  | zero =>
    intro w fuel s hw hd hf
    obtain ⟨f, rfl⟩ : ∃ f, fuel = f + 1 := ⟨fuel - 1, by omega⟩
    simp only [fsm_read_next_wait, wait_time_no_wrap T w hT hw]
    have : T < w + check_delay := by
      simp only [check_delay] at hd ⊢
      omega
    simp only [this, if_true]
    split <;> rfl
  | succ d ih =>
    intro w fuel s hw hd hf
    obtain ⟨f, rfl⟩ : ∃ f, fuel = f + 1 := ⟨fuel - 1, by omega⟩
    simp only [fsm_read_next_wait, wait_time_no_wrap T w hT hw]
    have h1 : ¬ T < w + check_delay := by
      simp only [check_delay] at hd ⊢
      omega
    simp only [h1, if_false]
    split
    · exact ih (w + check_delay) f _ (by omega)
        (by simp only [check_delay] at hd ⊢; omega) (by omega)
    · rfl

/-- On a source that stays short of `n` bytes the polling loop answers `false`
after exactly `(T - w) / check_delay + 1` delays. -/
theorem fsm_read_next_wait_starved (n T : Nat) (hT : T + check_delay < UINT32_MOD) :
    ∀ (d w fuel : Nat) (s : State), w ≤ T → (T - w) / check_delay = d → d < fuel →
      (∀ j, j ≤ d → (after_delays j s).pending.length < n) →
      fsm_read_next_wait n T fuel w s = some (false, after_delays (d + 1) s) := by
  intro d
  induction d with
  | zero =>
    intro w fuel s hw hd hf hs
    obtain ⟨f, rfl⟩ : ∃ f, fuel = f + 1 := ⟨fuel - 1, by omega⟩
    have h0 : s.pending.length < n := by simpa [after_delays_zero] using hs 0 (le_refl _)
    have h1 : T < w + check_delay := by
      simp only [check_delay] at hd ⊢
      omega
    simp only [fsm_read_next_wait, wait_time_no_wrap T w hT hw, uc_bytes_available, h0, h1,
      if_true]
    rw [after_delays_succ, after_delays_zero]
  | succ d ih =>
    intro w fuel s hw hd hf hs
    obtain ⟨f, rfl⟩ : ∃ f, fuel = f + 1 := ⟨fuel - 1, by omega⟩
    have h0 : s.pending.length < n := by simpa [after_delays_zero] using hs 0 (Nat.zero_le _)
    have h1 : ¬ T < w + check_delay := by
      simp only [check_delay] at hd ⊢
      omega
    simp only [fsm_read_next_wait, wait_time_no_wrap T w hT hw, uc_bytes_available, h0, h1,
      if_true, if_false]
    rw [ih (w + check_delay) f _ (by omega) (by simp only [check_delay] at hd ⊢; omega)
      (by omega) (fun j hj => by rw [← after_delays_succ]; exact hs (j + 1) (by omega))]
    rw [← after_delays_succ]

/-- When `n` bytes are there after `k` delays that fit the timeout, the
polling loop answers `true` at the first poll that finds them. -/
theorem fsm_read_next_wait_arrives (n T : Nat) (hT : T < UINT32_MOD) :
    ∀ (k w fuel : Nat) (s : State), w + check_delay * k ≤ T → k ≤ fuel →
      n ≤ (after_delays k s).pending.length →
      ∃ j, j ≤ k ∧ n ≤ (after_delays j s).pending.length ∧
        fsm_read_next_wait n T fuel w s = some (true, after_delays j s) := by
  intro k
  induction k with
  | zero =>
    intro w fuel s _ _ hn
    rw [after_delays_zero] at hn
    refine ⟨0, le_refl _, by rwa [after_delays_zero], ?_⟩
    rw [after_delays_zero]
    cases fuel <;> simp [fsm_read_next_wait, uc_bytes_available, Nat.not_lt.mpr hn]
  | succ k ih =>
    intro w fuel s hw hf hn
    by_cases h0 : n ≤ s.pending.length
    · refine ⟨0, Nat.zero_le _, by rwa [after_delays_zero], ?_⟩
      rw [after_delays_zero]
      cases fuel <;> simp [fsm_read_next_wait, uc_bytes_available, Nat.not_lt.mpr h0]
    · obtain ⟨f, rfl⟩ : ∃ f, fuel = f + 1 := ⟨fuel - 1, by omega⟩
      have h1 : ¬ T < w + check_delay := by
        simp only [check_delay] at hw ⊢
        omega
      have h2 : s.pending.length < n := by omega
      rw [after_delays_succ] at hn
      obtain ⟨j, hj, hjn, hres⟩ := ih (w + check_delay) f (uc_delay check_delay s)
        (by simp only [check_delay] at hw ⊢; omega) (by omega) hn
      have h3 : (w + check_delay) % UINT32_MOD = w + check_delay :=
        Nat.mod_eq_of_lt (by simp only [check_delay] at hw ⊢; omega)
      refine ⟨j + 1, by omega, by rwa [after_delays_succ], ?_⟩
      simp only [fsm_read_next_wait, h3, uc_bytes_available, h2, h1, if_true, if_false]
      rw [hres, after_delays_succ]

/-! ## Claims on the packet reader -/

/-- C6: `fsm_read_next` is all or nothing. Whatever the destination, the count
and the timeout, a call that answers `false` has taken no byte from the source
(the pending bytes are the old ones followed by what arrived during the `k`
delays of the call) and has stored nothing; a call that answers `true` has
taken exactly the first `count` pending bytes and stored them, in order, in
`dest[0..count)`. With a timeout that `wait_time` can exceed without wrapping
the call does answer (fuel `timeout / 10 + 1` is enough). -/
theorem fsm_read_next_all_or_nothing (fuel : Nat) (dest : Ptr) (count timeout : Nat)
    (s : State) :
    (timeout + 10 < 2 ^ 32 → timeout / 10 < fuel →
      (fsm_read_next fuel dest count timeout s).isSome = true) ∧
    ∀ (r : Bool) (s' : State), fsm_read_next fuel dest count timeout s = some (r, s') →
      ∃ k,
        (r = false ∧ s'.pending = s.pending ++ (s.incoming.take k).flatten ∧
          s'.mem = s.mem) ∨
        (r = true ∧ ∃ bytes, bytes.length = count ∧
          s.pending ++ (s.incoming.take k).flatten = bytes ++ s'.pending ∧
          s'.peekN dest count = bytes) := by
  constructor
  · intro hT hf
    have hw := fsm_read_next_wait_total count timeout hT (timeout / 10) 0 fuel s
      (Nat.zero_le _) rfl hf
    unfold fsm_read_next
    cases hres : fsm_read_next_wait count timeout fuel 0 s with
    | none => rw [hres] at hw; cases hw
    | some q =>
      obtain ⟨b, s1⟩ := q
      cases b <;> rfl
  · intro r s' h
    obtain ⟨k, _, hk⟩ := fsm_read_next_some fuel dest count timeout s r s' h
    refine ⟨k, ?_⟩
    rcases hk with ⟨hr, _, hs⟩ | ⟨hr, hn, hs⟩
    · left
      subst hs
      exact ⟨hr, rfl, rfl⟩
    · right
      refine ⟨hr, (after_delays k s).pending.take count, ?_, ?_, ?_⟩
      · rw [List.length_take]
        exact Nat.min_eq_left hn
      · subst hs
        rw [pokeFrom_pending]
        exact (List.take_append_drop count _).symm
      · subst hs
        have hl : ((after_delays k s).pending.take count).length = count := by
          rw [List.length_take]
          exact Nat.min_eq_left hn
        have := peekN_pokeFrom dest ((after_delays k s).pending.take count)
          { after_delays k s with pending := (after_delays k s).pending.drop count }
        rwa [hl] at this

/-- C6, at a concrete input: three bytes pending, two asked for. -/
theorem fsm_read_next_all_or_nothing_witness :
    ∃ s', fsm_read_next 0 ⟨Region.fsm_buffer, 0⟩ 2 0 { idle_state with pending := [7, 8, 9] }
        = some (true, s') ∧
      ∃ k,
        (true = false ∧ s'.pending = [7, 8, 9] ++ (([] : List (List Byte)).take k).flatten ∧
          s'.mem = idle_state.mem) ∨
        (true = true ∧ ∃ bytes, bytes.length = 2 ∧
          [7, 8, 9] ++ (([] : List (List Byte)).take k).flatten = bytes ++ s'.pending ∧
          s'.peekN ⟨Region.fsm_buffer, 0⟩ 2 = bytes) :=
  ⟨_, rfl, (fsm_read_next_all_or_nothing 0 ⟨Region.fsm_buffer, 0⟩ 2 0
    { idle_state with pending := [7, 8, 9] }).2 true _ rfl⟩

/-- C7, as stated, fails: with timeout 0 and too few bytes the reader calls
`uc_delay(10)` once before it answers `false`. -/
theorem fsm_read_next_zero_timeout_delays :
    (fsm_read_next 1 ⟨Region.fsm_buffer, 0⟩ 1 0 idle_state).map (fun r => (r.1, r.2.trace))
      = some (false, [Event.uc_delay 10]) := by
  decide

/-- C7, amended: with timeout 0 the reader answers `true` exactly when `count`
bytes are available at the call. When they are, it makes no delay; when they
are not, it calls `uc_delay(10)` exactly once and then answers `false`. -/
theorem fsm_read_next_zero_timeout (fuel : Nat) (dest : Ptr) (count : Nat) (s : State) :
    (count ≤ uc_bytes_available s →
      ∃ s', fsm_read_next (fuel + 1) dest count 0 s = some (true, s') ∧ s'.trace = s.trace) ∧
    (uc_bytes_available s < count →
      fsm_read_next (fuel + 1) dest count 0 s = some (false, uc_delay 10 s) ∧
      (uc_delay 10 s).trace = s.trace ++ [Event.uc_delay 10]) := by
  constructor
  · intro h
    have h1 : ¬ s.pending.length < count := Nat.not_lt.mpr h
    refine ⟨fsm_read_next_copy dest count 0 s, ?_, ?_⟩
    · simp [fsm_read_next, fsm_read_next_wait, uc_bytes_available, h1]
    · rw [fsm_read_next_copy_eq dest count 0 s h, pokeFrom_trace]
  · intro h
    have h1 : s.pending.length < count := h
    refine ⟨?_, rfl⟩
    simp [fsm_read_next, fsm_read_next_wait, uc_bytes_available, h1, check_delay, UINT32_MOD]

/-- C7, amended, at concrete inputs: one byte asked for with one byte pending,
and with none. -/
theorem fsm_read_next_zero_timeout_witness :
    (∃ s', fsm_read_next 1 ⟨Region.fsm_buffer, 0⟩ 1 0 { idle_state with pending := [7] }
        = some (true, s') ∧ s'.trace = []) ∧
    fsm_read_next 1 ⟨Region.fsm_buffer, 0⟩ 1 0 idle_state = some (false, uc_delay 10 idle_state) :=
  ⟨(fsm_read_next_zero_timeout 0 ⟨Region.fsm_buffer, 0⟩ 1
      { idle_state with pending := [7] }).1 (by decide),
    ((fsm_read_next_zero_timeout 0 ⟨Region.fsm_buffer, 0⟩ 1 idle_state).2 (by decide)).1⟩

/-- C8: for a timeout with `timeout + 10 < 2^32`, on a source that stays
short of `count` bytes at every poll, `fsm_read_next` answers `false` after
exactly `timeout / 10 + 1` delays of 10 ms, the first moment at which the
accumulated time exceeds the timeout; and when `count` bytes are available at
a poll taken after `k` delays with `10 * k <= timeout`, it answers `true`. -/
theorem fsm_read_next_timeout (fuel : Nat) (dest : Ptr) (count timeout : Nat) (s : State)
    (hT : timeout + 10 < 2 ^ 32) (hfuel : timeout / 10 < fuel) :
    ((∀ j, j ≤ timeout / 10 → uc_bytes_available (after_delays j s) < count) →
      ∃ s', fsm_read_next fuel dest count timeout s = some (false, s') ∧
        s'.trace = s.trace ++ List.replicate (timeout / 10 + 1) (Event.uc_delay 10) ∧
        s' = after_delays (timeout / 10 + 1) s) ∧
    (∀ k, 10 * k ≤ timeout → count ≤ uc_bytes_available (after_delays k s) →
      ∃ s', fsm_read_next fuel dest count timeout s = some (true, s')) := by
  constructor
  · intro hs
    refine ⟨after_delays (timeout / 10 + 1) s, ?_, rfl, rfl⟩
    have := fsm_read_next_wait_starved count timeout hT (timeout / 10) 0 fuel s
      (Nat.zero_le _) rfl hfuel hs
    simp [fsm_read_next, this]
  · intro k hk hn
    have hk2 : k ≤ fuel := by omega
    obtain ⟨j, _, _, hres⟩ := fsm_read_next_wait_arrives count timeout
      (show timeout < UINT32_MOD by simp only [UINT32_MOD]; omega) k 0 fuel s
      (by simp only [check_delay]; omega) hk2 hn
    exact ⟨fsm_read_next_copy dest count 0 (after_delays j s), by simp [fsm_read_next, hres]⟩

/-- C8, at concrete inputs: timeout 25 ms, one byte asked for, on an idle
source (three delays, then `false`) and on a source whose byte arrives during
the second delay (`true`). -/
theorem fsm_read_next_timeout_witness :
    (∃ s', fsm_read_next 3 ⟨Region.fsm_buffer, 0⟩ 1 25 idle_state = some (false, s') ∧
        s'.trace = [] ++ List.replicate (25 / 10 + 1) (Event.uc_delay 10) ∧
        s' = after_delays (25 / 10 + 1) idle_state) ∧
    ∃ s', fsm_read_next 3 ⟨Region.fsm_buffer, 0⟩ 1 25 { idle_state with incoming := [[], [7]] }
        = some (true, s') :=
  ⟨(fsm_read_next_timeout 3 ⟨Region.fsm_buffer, 0⟩ 1 25 idle_state (by decide) (by decide)).1
      (by decide),
    (fsm_read_next_timeout 3 ⟨Region.fsm_buffer, 0⟩ 1 25 { idle_state with incoming := [[], [7]] }
      (by decide) (by decide)).2 2 (by decide) (by decide)⟩

/-! ## The acknowledgement path -/

theorem fsm_get_checksum_struct_eq (env : Env) (s : State) :
    fsm_get_checksum_struct env s = checksum_of_key env s.major_key := rfl

/-- The whole effect of `fsm_send` on data outside the checksum buffer: the
checksum of the data under the strategy of the current `major_key` goes to the
checksum buffer, then the data and the checksum are sent. -/
theorem fsm_send_eq (env : Env) (data : Ptr) (data_len : Nat) (s : State)
    (h : data.region ≠ Region.fsm_checksum_buffer) :
    fsm_send env data data_len s =
      { State.pokeFrom ⟨Region.fsm_checksum_buffer, 0⟩
          (frame_checksum (checksum_of_key env s.major_key) (s.peekN data data_len)) 0 s with
        trace := s.trace ++
          [Event.uc_send (s.peekN data data_len),
           Event.uc_send
             (frame_checksum (checksum_of_key env s.major_key) (s.peekN data data_len))] } := by
  have e1 := peekN_pokeFrom_other ⟨Region.fsm_checksum_buffer, 0⟩ data
    (frame_checksum (checksum_of_key env s.major_key) (s.peekN data data_len)) 0 s data_len h
  have e2 := peekN_pokeFrom ⟨Region.fsm_checksum_buffer, 0⟩
    (frame_checksum (checksum_of_key env s.major_key) (s.peekN data data_len)) s
  have hlen : (frame_checksum (checksum_of_key env s.major_key)
      (s.peekN data data_len)).length = (checksum_of_key env s.major_key).get_checksum_size :=
    (checksum_of_key env s.major_key).size_ok _ _
  rw [hlen] at e2
  apply State.ext <;> try rfl
  show (State.pokeFrom ⟨Region.fsm_checksum_buffer, 0⟩
        (frame_checksum (checksum_of_key env s.major_key) (s.peekN data data_len)) 0 s).trace ++
      [Event.uc_send ((State.pokeFrom ⟨Region.fsm_checksum_buffer, 0⟩
        (frame_checksum (checksum_of_key env s.major_key) (s.peekN data data_len)) 0 s).peekN
          data data_len)] ++
      [Event.uc_send ((State.pokeFrom ⟨Region.fsm_checksum_buffer, 0⟩
        (frame_checksum (checksum_of_key env s.major_key) (s.peekN data data_len)) 0 s).peekN
          ⟨Region.fsm_checksum_buffer, 0⟩ (checksum_of_key env s.major_key).get_checksum_size)]
      = _
  rw [e1, e2, pokeFrom_trace]
  simp

/-- The whole effect of `fsm_ack`: the two bytes of the frame go to the ACK
buffer, their checksum under the strategy of the current `major_key` goes to
the checksum buffer, and both are sent. -/
theorem fsm_ack_eq (env : Env) (ack_key : Byte) (s : State) :
    fsm_ack env ack_key s =
      { State.pokeFrom ⟨Region.fsm_checksum_buffer, 0⟩
          (frame_checksum (checksum_of_key env s.major_key) [env.MAJOR_KEY_ACK, ack_key]) 0
          ((s.poke ⟨Region.fsm_ack_buffer, 0⟩ 0 env.MAJOR_KEY_ACK).poke
            ⟨Region.fsm_ack_buffer, 0⟩ 1 ack_key) with
        trace := s.trace ++ ack_frame env (checksum_of_key env s.major_key) ack_key } := by
  have hdata : ((s.poke ⟨Region.fsm_ack_buffer, 0⟩ 0 env.MAJOR_KEY_ACK).poke
      ⟨Region.fsm_ack_buffer, 0⟩ 1 ack_key).peekN ⟨Region.fsm_ack_buffer, 0⟩ 2
        = [env.MAJOR_KEY_ACK, ack_key] := by
    simp [State.peekN, State.peek, State.poke, List.range_succ]
  unfold fsm_ack
  simp only [s1_major_key_loc, s1_num_s2_bytes_loc, num_s1_bytes]
  rw [fsm_send_eq env _ _ _ (by decide), hdata]
  rfl

@[simp] theorem fsm_ack_trace (env : Env) (ack_key : Byte) (s : State) :
    (fsm_ack env ack_key s).trace
      = s.trace ++ ack_frame env (checksum_of_key env s.major_key) ack_key := by
  rw [fsm_ack_eq]

@[simp] theorem fsm_ack_major_key (env : Env) (ack_key : Byte) (s : State) :
    (fsm_ack env ack_key s).major_key = s.major_key := by
  rw [fsm_ack_eq]; simp

@[simp] theorem fsm_ack_num_s2_bytes (env : Env) (ack_key : Byte) (s : State) :
    (fsm_ack env ack_key s).num_s2_bytes = s.num_s2_bytes := by
  rw [fsm_ack_eq]; simp

@[simp] theorem fsm_ack_curr_packet_stage (env : Env) (ack_key : Byte) (s : State) :
    (fsm_ack env ack_key s).curr_packet_stage = s.curr_packet_stage := by
  rw [fsm_ack_eq]; simp

@[simp] theorem fsm_ack_fsm_buffer_ptr (env : Env) (ack_key : Byte) (s : State) :
    (fsm_ack env ack_key s).fsm_buffer_ptr = s.fsm_buffer_ptr := by
  rw [fsm_ack_eq]; simp; rfl

@[simp] theorem fsm_ack_pending (env : Env) (ack_key : Byte) (s : State) :
    (fsm_ack env ack_key s).pending = s.pending := by
  rw [fsm_ack_eq]; simp

@[simp] theorem fsm_ack_incoming (env : Env) (ack_key : Byte) (s : State) :
    (fsm_ack env ack_key s).incoming = s.incoming := by
  rw [fsm_ack_eq]; simp; rfl

/-- The acknowledgement path does not write to `fsm_buffer`. -/
theorem fsm_ack_peekN_fsm_buffer (env : Env) (ack_key : Byte) (s : State) (off n : Nat) :
    (fsm_ack env ack_key s).peekN ⟨Region.fsm_buffer, off⟩ n
      = s.peekN ⟨Region.fsm_buffer, off⟩ n := by
  rw [fsm_ack_eq]
  show (State.pokeFrom ⟨Region.fsm_checksum_buffer, 0⟩ _ 0 _).peekN _ n = _
  rw [peekN_pokeFrom_other _ _ _ _ _ _ (fun h => by cases h)]
  simp [State.peekN, State.peek, State.poke]

/-! ## Claims on the acknowledgement path -/

/-- C4: for every `ack_key` and every value of the context's `major_key`,
`fsm_ack(ack_key)` writes to the transport exactly the two bytes
`{MAJOR_KEY_ACK, ack_key}` and then the checksum of those two bytes, computed
from an all-zero start value by the strategy `fsm_get_checksum_struct` selects
from the current `major_key`; the checksum has that strategy's size, and the
strategy is `io_checksum` for the IO key, `data_transfer_checksum` for the
DATA_TRANSMIT key, `programmer_checksum` for the PROGRAMMER key and
`default_checksum` for every other key, whatever `ack_key` is. -/
theorem fsm_ack_writes_frame (env : Env) (ack_key : Byte) (s : State) :
    (fsm_ack env ack_key s).trace = s.trace ++
      [Event.uc_send [env.MAJOR_KEY_ACK, ack_key],
       Event.uc_send ((fsm_get_checksum_struct env s).get_checksum
         [env.MAJOR_KEY_ACK, ack_key]
         (List.replicate (fsm_get_checksum_struct env s).get_checksum_size 0))] ∧
    ((fsm_get_checksum_struct env s).get_checksum [env.MAJOR_KEY_ACK, ack_key]
      (List.replicate (fsm_get_checksum_struct env s).get_checksum_size 0)).length
        = (fsm_get_checksum_struct env s).get_checksum_size ∧
    (s.major_key = env.GUI_TYPE_IO → fsm_get_checksum_struct env s = env.io_checksum) ∧
    (s.major_key = env.GUI_TYPE_DATA_TRANSMIT →
      fsm_get_checksum_struct env s = env.data_transfer_checksum) ∧
    (s.major_key = env.GUI_TYPE_PROGRAMMER →
      fsm_get_checksum_struct env s = env.programmer_checksum) ∧
    (s.major_key ≠ env.GUI_TYPE_IO → s.major_key ≠ env.GUI_TYPE_DATA_TRANSMIT →
      s.major_key ≠ env.GUI_TYPE_PROGRAMMER →
      fsm_get_checksum_struct env s = env.default_checksum) := by
  have hk := env.keys_nodup
  simp only [List.nodup_cons, List.mem_cons, List.mem_singleton, not_or] at hk
  obtain ⟨-, -, -, ⟨hid, hip, -⟩, ⟨hdp, -⟩, -⟩ := hk
  refine ⟨?_, (fsm_get_checksum_struct env s).size_ok _ _, ?_, ?_, ?_, ?_⟩
  · rw [fsm_ack_trace]
    rfl
  · intro h
    simp [fsm_get_checksum_struct, h]
  · intro h
    simp [fsm_get_checksum_struct, h, Ne.symm hid]
  · intro h
    simp [fsm_get_checksum_struct, h, Ne.symm hip, Ne.symm hdp]
  · intro h1 h2 h3
    simp [fsm_get_checksum_struct, h1, h2, h3]

/-- C4, at a concrete input: acknowledging key 3 while the context's
`major_key` is 0 (the default class, CRC-8 in the sample environment). -/
theorem fsm_ack_writes_frame_witness :
    (fsm_ack sample_env 3 idle_state).trace = [Event.uc_send [2, 3], Event.uc_send [35]] ∧
    fsm_get_checksum_struct sample_env idle_state = sample_env.default_checksum :=
  ⟨(fsm_ack_writes_frame sample_env 3 idle_state).1.trans (by decide),
   (fsm_ack_writes_frame sample_env 3 idle_state).2.2.2.2.2 (by decide) (by decide) (by decide)⟩

/-! ## The blocking engine -/

/-- Every path of one pass of `fsm_poll`, read off the three reads and the
checksum test. -/
theorem fsm_poll_iteration_cases (env : Env) (fuel : Nat) (s : State) (e : PollExit)
    (s' : State) (h : fsm_poll_iteration env fuel s = some (e, s')) :
    (e = PollExit.header_timeout ∧
      fsm_read_next fuel ⟨Region.fsm_buffer, 0⟩ num_s1_bytes env.packet_timeout
        { s with fsm_buffer_ptr := 0 } = some (false, s')) ∨
    ∃ s1, fsm_read_next fuel ⟨Region.fsm_buffer, 0⟩ num_s1_bytes env.packet_timeout
        { s with fsm_buffer_ptr := 0 } = some (true, s1) ∧
      ((∃ s4, e = PollExit.payload_timeout ∧
          fsm_read_next fuel ⟨Region.fsm_buffer, (fsm_store_s1 s1).fsm_buffer_ptr⟩
            (fsm_store_s1 s1).num_s2_bytes.val env.packet_timeout (fsm_store_s1 s1)
              = some (false, s4) ∧
          s' = uc_reset_buffers env (fsm_ack env env.MAJOR_KEY_ERROR s4)) ∨
       ∃ s4, fsm_read_next fuel ⟨Region.fsm_buffer, (fsm_store_s1 s1).fsm_buffer_ptr⟩
            (fsm_store_s1 s1).num_s2_bytes.val env.packet_timeout (fsm_store_s1 s1)
              = some (true, s4) ∧
         ((∃ s5, e = PollExit.checksum_timeout ∧
            fsm_read_next fuel ⟨Region.fsm_checksum_buffer, 0⟩
              (fsm_get_checksum_struct env s4).get_checksum_size env.packet_timeout s4
                = some (false, s5) ∧
            s' = uc_reset_buffers env (fsm_ack env env.MAJOR_KEY_ERROR s5)) ∨
          ∃ s5, fsm_read_next fuel ⟨Region.fsm_checksum_buffer, 0⟩
              (fsm_get_checksum_struct env s4).get_checksum_size env.packet_timeout s4
                = some (true, s5) ∧
            ((e = PollExit.checksum_mismatch ∧
              (fsm_check_checksum env ⟨Region.fsm_buffer, 0⟩
                (num_s1_bytes + s5.num_s2_bytes.val) ⟨Region.fsm_checksum_buffer, 0⟩ s5).1
                  = false ∧
              s' = uc_reset_buffers env (fsm_ack env env.MAJOR_KEY_ERROR
                (fsm_check_checksum env ⟨Region.fsm_buffer, 0⟩
                  (num_s1_bytes + s5.num_s2_bytes.val) ⟨Region.fsm_checksum_buffer, 0⟩ s5).2)) ∨
             (e = PollExit.dispatched ∧
              (fsm_check_checksum env ⟨Region.fsm_buffer, 0⟩
                (num_s1_bytes + s5.num_s2_bytes.val) ⟨Region.fsm_checksum_buffer, 0⟩ s5).1
                  = true ∧
              s' = fsm_run env (fsm_ack env s5.major_key
                (fsm_check_checksum env ⟨Region.fsm_buffer, 0⟩
                  (num_s1_bytes + s5.num_s2_bytes.val)
                  ⟨Region.fsm_checksum_buffer, 0⟩ s5).2))))) := by
  unfold fsm_poll_iteration at h
  simp only at h
  split at h
  · cases h
  · rename_i s1 h1
    simp only [Option.some.injEq, Prod.mk.injEq] at h
    obtain ⟨rfl, rfl⟩ := h
    exact Or.inl ⟨rfl, h1⟩
  · rename_i s1 h1
    refine Or.inr ⟨s1, h1, ?_⟩
    split at h
    · cases h
    · rename_i s4 h2
      simp only [Option.some.injEq, Prod.mk.injEq] at h
      obtain ⟨rfl, rfl⟩ := h
      exact Or.inl ⟨s4, rfl, h2, rfl⟩
    · rename_i s4 h2
      refine Or.inr ⟨s4, h2, ?_⟩
      split at h
      · cases h
      · rename_i s5 h3
        simp only [Option.some.injEq, Prod.mk.injEq] at h
        obtain ⟨rfl, rfl⟩ := h
        exact Or.inl ⟨s5, rfl, h3, rfl⟩
      · rename_i s5 h3
        refine Or.inr ⟨s5, h3, ?_⟩
        split at h
        · rename_i hc
          simp only [Option.some.injEq, Prod.mk.injEq] at h
          obtain ⟨rfl, rfl⟩ := h
          exact Or.inl ⟨rfl, hc, rfl⟩
        · rename_i hc
          simp only [Option.some.injEq, Prod.mk.injEq] at h
          obtain ⟨rfl, rfl⟩ := h
          exact Or.inr ⟨rfl, (by simpa using hc), rfl⟩

/-- What a call of `fsm_read_next` leaves alone, whatever it answers: it adds
only delays to the record and keeps the scalar variables of the engine. -/
theorem fsm_read_next_frame (fuel : Nat) (dest : Ptr) (n T : Nat) (s : State) (r : Bool)
    (s' : State) (h : fsm_read_next fuel dest n T s = some (r, s')) :
    ∃ k, s'.trace = s.trace ++ List.replicate k (Event.uc_delay 10) ∧
      s'.major_key = s.major_key ∧ s'.num_s2_bytes = s.num_s2_bytes ∧
      s'.curr_packet_stage = s.curr_packet_stage ∧ s'.fsm_buffer_ptr = s.fsm_buffer_ptr := by
  obtain ⟨k, _, hk⟩ := fsm_read_next_some fuel dest n T s r s' h
  refine ⟨k, ?_⟩
  rcases hk with ⟨_, _, hs⟩ | ⟨_, _, hs⟩
  · subst hs
    exact ⟨rfl, rfl, rfl, rfl, rfl⟩
  · subst hs
    simp only [pokeFrom_trace, pokeFrom_major_key, pokeFrom_num_s2_bytes,
      pokeFrom_curr_packet_stage, pokeFrom_fsm_buffer_ptr]
    exact ⟨rfl, rfl, rfl, rfl, rfl⟩

/-- The whole effect of `fsm_check_checksum`: the checksum of the data under
the strategy of the current `major_key` goes to the compare buffer and is
verified against the bytes at `checksum_cmp`. -/
theorem fsm_check_checksum_eq (env : Env) (data : Ptr) (data_len : Nat) (checksum_cmp : Ptr)
    (s : State) (h : checksum_cmp.region ≠ Region.fsm_checksum_cmp_buffer) :
    fsm_check_checksum env data data_len checksum_cmp s =
      ((checksum_of_key env s.major_key).check_checksum
          (s.peekN checksum_cmp (checksum_of_key env s.major_key).get_checksum_size)
          (frame_checksum (checksum_of_key env s.major_key) (s.peekN data data_len)),
        State.pokeFrom ⟨Region.fsm_checksum_cmp_buffer, 0⟩
          (frame_checksum (checksum_of_key env s.major_key) (s.peekN data data_len)) 0 s) := by
  have e1 := peekN_pokeFrom_other ⟨Region.fsm_checksum_cmp_buffer, 0⟩ checksum_cmp
    (frame_checksum (checksum_of_key env s.major_key) (s.peekN data data_len)) 0 s
    (checksum_of_key env s.major_key).get_checksum_size h
  have e2 := peekN_pokeFrom ⟨Region.fsm_checksum_cmp_buffer, 0⟩
    (frame_checksum (checksum_of_key env s.major_key) (s.peekN data data_len)) s
  have hlen : (frame_checksum (checksum_of_key env s.major_key)
      (s.peekN data data_len)).length = (checksum_of_key env s.major_key).get_checksum_size :=
    (checksum_of_key env s.major_key).size_ok _ _
  rw [hlen] at e2
  show ((checksum_of_key env s.major_key).check_checksum
      ((State.pokeFrom ⟨Region.fsm_checksum_cmp_buffer, 0⟩
        (frame_checksum (checksum_of_key env s.major_key) (s.peekN data data_len)) 0 s).peekN
          checksum_cmp (checksum_of_key env s.major_key).get_checksum_size)
      ((State.pokeFrom ⟨Region.fsm_checksum_cmp_buffer, 0⟩
        (frame_checksum (checksum_of_key env s.major_key) (s.peekN data data_len)) 0 s).peekN
          ⟨Region.fsm_checksum_cmp_buffer, 0⟩
          (checksum_of_key env s.major_key).get_checksum_size), _) = _
  rw [e1, e2]
  rfl

/-- The whole effect of `fsm_run`: one call, of the handler of the current
`major_key` or of `uc_reset`. -/
theorem fsm_run_eq (env : Env) (s : State) :
    fsm_run env s =
      { s with trace := s.trace ++
          [dispatch_event env s.major_key
            (s.peekN ⟨Region.fsm_buffer, s.fsm_buffer_ptr⟩ s.num_s2_bytes.val)] } := by
  have hl : (s.peekN ⟨Region.fsm_buffer, s.fsm_buffer_ptr⟩ s.num_s2_bytes.val).length
      = s.num_s2_bytes.val := by simp [State.peekN]
  unfold fsm_run dispatch_event
  simp only [hl]
  split
  · rfl
  · split
    · rfl
    · split
      · rfl
      · rfl

theorem uc_reset_buffers_curr_packet_stage (env : Env) (x : State) :
    (uc_reset_buffers env x).curr_packet_stage = x.curr_packet_stage := rfl

/-- The error path shared by both engines, `fsm_ack(MAJOR_KEY_ERROR)` then
`uc_reset_buffers()`: one ACK frame naming ERROR, one buffer clear. -/
theorem error_path_trace (env : Env) (x : State) :
    (uc_reset_buffers env (fsm_ack env env.MAJOR_KEY_ERROR x)).trace =
      x.trace ++ ack_frame env (checksum_of_key env x.major_key) env.MAJOR_KEY_ERROR
        ++ [Event.uc_reset_buffers] ∧
    (uc_reset_buffers env (fsm_ack env env.MAJOR_KEY_ERROR x)).major_key = x.major_key := by
  constructor
  · show (fsm_ack env env.MAJOR_KEY_ERROR x).trace ++ [Event.uc_reset_buffers] = _
    rw [fsm_ack_trace]
  · show (fsm_ack env env.MAJOR_KEY_ERROR x).major_key = _
    rw [fsm_ack_major_key]

/-- The next pass of `fsm_poll` starts from the state the pass before left. -/
theorem fsm_poll_succ (env : Env) (fuel n : Nat) (s : State) (e : PollExit) (s' : State)
    (h : fsm_poll_iteration env fuel s = some (e, s')) :
    fsm_poll env fuel (n + 1) s = (fsm_poll env fuel n s').map (fun r => (e :: r.1, r.2)) := by
  simp only [fsm_poll, h]
  cases fsm_poll env fuel n s' with
  | none => rfl
  | some r => rfl

theorem after_delays_add (a b : Nat) (s : State) :
    after_delays (a + b) s = after_delays b (after_delays a s) := by
  induction a generalizing s with
  | zero => rw [Nat.zero_add, after_delays_zero]
  | succ a ih => rw [Nat.add_right_comm, after_delays_succ, ih, ← after_delays_succ]

/-- A read whose bytes are delivered in time. When the source, within `k`
delays that fit the timeout, holds `bytes` followed by `rest`, the call
answers `true` after some `j <= k` delays, has stored `bytes` at the
destination and nowhere else, and leaves `rest` to arrive within the `k - j`
delays that remain. -/
theorem fsm_read_next_delivered (fuel : Nat) (dest : Ptr) (T : Nat) (s : State) (k : Nat)
    (bytes rest : List Byte) (hT : T < UINT32_MOD) (hk : check_delay * k ≤ T)
    (hf : k ≤ fuel) (hsrc : s.pending ++ (s.incoming.take k).flatten = bytes ++ rest) :
    ∃ j s', j ≤ k ∧ fsm_read_next fuel dest bytes.length T s = some (true, s') ∧
      s'.pending ++ (s'.incoming.take (k - j)).flatten = rest ∧
      s'.trace = s.trace ++ List.replicate j (Event.uc_delay 10) ∧
      s'.peekN dest bytes.length = bytes ∧
      (∀ r i, r ≠ dest.region ∨ i < dest.off ∨ dest.off + bytes.length ≤ i →
        s'.mem r i = s.mem r i) ∧
      s'.major_key = s.major_key ∧ s'.num_s2_bytes = s.num_s2_bytes ∧
      s'.fsm_buffer_ptr = s.fsm_buffer_ptr ∧ s'.curr_packet_stage = s.curr_packet_stage := by
  have hn : bytes.length ≤ (after_delays k s).pending.length := by
    show bytes.length ≤ (s.pending ++ (s.incoming.take k).flatten).length
    rw [hsrc, List.length_append]
    omega
  obtain ⟨j, hj, hjn, hres⟩ := fsm_read_next_wait_arrives bytes.length T hT k 0 fuel s
    (by omega) hf hn
  have hsplit : (after_delays j s).pending ++
      ((after_delays j s).incoming.take (k - j)).flatten = bytes ++ rest := by
    have h1 : after_delays k s = after_delays (k - j) (after_delays j s) := by
      rw [← after_delays_add, Nat.add_sub_cancel' hj]
    have h2 := congrArg State.pending h1
    rw [← hsrc]
    exact h2.symm
  have htake : (after_delays j s).pending.take bytes.length = bytes := by
    have := congrArg (List.take bytes.length) hsplit
    rwa [List.take_append_of_le_length hjn, List.take_left'] at this
    rfl
  have hdrop : (after_delays j s).pending.drop bytes.length ++
      ((after_delays j s).incoming.take (k - j)).flatten = rest := by
    have := congrArg (List.drop bytes.length) hsplit
    rwa [List.drop_append_of_le_length hjn, List.drop_left'] at this
    rfl
  refine ⟨j, State.pokeFrom dest bytes 0
    { after_delays j s with pending := (after_delays j s).pending.drop bytes.length },
    hj, ?_, ?_, ?_, ?_, ?_, ?_, ?_, ?_, ?_⟩
  · unfold fsm_read_next
    rw [hres]
    simp only
    rw [fsm_read_next_copy_eq dest bytes.length 0 _ hjn, htake]
  · rw [pokeFrom_pending, pokeFrom_incoming]
    exact hdrop
  · rw [pokeFrom_trace]
    rfl
  · exact peekN_pokeFrom dest bytes _
  · intro r i hri
    by_cases hr : r = dest.region
    · subst hr
      have hi : i < dest.off + 0 ∨ dest.off + 0 + bytes.length ≤ i := by
        rcases hri with h | h | h
        · exact absurd rfl h
        · omega
        · omega
      rw [pokeFrom_mem_outside dest bytes 0 _ i hi]
      rfl
    · rw [pokeFrom_mem_other dest bytes 0 _ r i hr]
      rfl
  · rw [pokeFrom_major_key]; rfl
  · rw [pokeFrom_num_s2_bytes]; rfl
  · rw [pokeFrom_fsm_buffer_ptr]; rfl
  · rw [pokeFrom_curr_packet_stage]; rfl

/-- Loads see only the bytes they cover. -/
theorem peekN_congr (s t : State) (r : Region) (off n : Nat)
    (h : ∀ i, off ≤ i → i < off + n → s.mem r i = t.mem r i) :
    s.peekN ⟨r, off⟩ n = t.peekN ⟨r, off⟩ n := by
  simp only [State.peekN, State.peek]
  apply List.map_congr_left
  intro i hi
  rw [List.mem_range] at hi
  exact h (off + i) (by omega) (by omega)

/-- Loads over two adjacent ranges. -/
theorem peekN_add (s : State) (r : Region) (off a b : Nat) :
    s.peekN ⟨r, off⟩ (a + b) = s.peekN ⟨r, off⟩ a ++ s.peekN ⟨r, off + a⟩ b := by
  simp only [State.peekN, List.range_add, List.map_append, List.map_map]
  congr 1
  apply List.map_congr_left
  intro i _
  simp [State.peek, Nat.add_assoc]

/-- The path of one pass of `fsm_poll` on which the three reads succeed and
the checksum verifies. -/
theorem fsm_poll_iteration_dispatched (env : Env) (fuel : Nat) (s s1 s4 s5 : State)
    (h1 : fsm_read_next fuel ⟨Region.fsm_buffer, 0⟩ num_s1_bytes env.packet_timeout
      { s with fsm_buffer_ptr := 0 } = some (true, s1))
    (h2 : fsm_read_next fuel ⟨Region.fsm_buffer, (fsm_store_s1 s1).fsm_buffer_ptr⟩
      (fsm_store_s1 s1).num_s2_bytes.val env.packet_timeout (fsm_store_s1 s1) = some (true, s4))
    (h3 : fsm_read_next fuel ⟨Region.fsm_checksum_buffer, 0⟩
      (fsm_get_checksum_struct env s4).get_checksum_size env.packet_timeout s4 = some (true, s5))
    (hc : (fsm_check_checksum env ⟨Region.fsm_buffer, 0⟩ (num_s1_bytes + s5.num_s2_bytes.val)
      ⟨Region.fsm_checksum_buffer, 0⟩ s5).1 = true) :
    fsm_poll_iteration env fuel s = some (PollExit.dispatched,
      fsm_run env (fsm_ack env s5.major_key
        (fsm_check_checksum env ⟨Region.fsm_buffer, 0⟩ (num_s1_bytes + s5.num_s2_bytes.val)
          ⟨Region.fsm_checksum_buffer, 0⟩ s5).2)) := by
  unfold fsm_poll_iteration
  simp only [h1, h2, h3, hc]
  rfl

/-- What one pass of `fsm_poll` adds to the record, by exit: after the delays
of its reads nothing (header timeout), or an ACK frame naming ERROR and a
buffer clear (the three error exits), or an ACK frame naming the `major_key`
and one dispatch. Each frame is checksummed with the strategy of the context's
`major_key`, the key of the header just read. -/
theorem fsm_poll_iteration_trace (env : Env) (fuel : Nat) (s : State) (e : PollExit)
    (s' : State) (h : fsm_poll_iteration env fuel s = some (e, s')) :
    ∃ k,
      (e = PollExit.header_timeout ∧
        s'.trace = s.trace ++ List.replicate k (Event.uc_delay 10)) ∨
      ((e = PollExit.payload_timeout ∨ e = PollExit.checksum_timeout ∨
          e = PollExit.checksum_mismatch) ∧
        s'.trace = s.trace ++ List.replicate k (Event.uc_delay 10) ++
          ack_frame env (checksum_of_key env s'.major_key) env.MAJOR_KEY_ERROR ++
          [Event.uc_reset_buffers]) ∨
      (e = PollExit.dispatched ∧ ∃ payload,
        s'.trace = s.trace ++ List.replicate k (Event.uc_delay 10) ++
          ack_frame env (checksum_of_key env s'.major_key) s'.major_key ++
          [dispatch_event env s'.major_key payload]) := by
  rcases fsm_poll_iteration_cases env fuel s _ s' h with ⟨he1, h1⟩ | ⟨s1, h1, h2⟩
  · obtain ⟨k1, ht1, _⟩ := fsm_read_next_frame _ _ _ _ _ _ _ h1
    exact ⟨k1, Or.inl ⟨he1, ht1⟩⟩
  · obtain ⟨k1, ht1, _⟩ := fsm_read_next_frame _ _ _ _ _ _ _ h1
    have ht1' : (fsm_store_s1 s1).trace = s.trace ++ List.replicate k1 (Event.uc_delay 10) :=
      ht1
    rcases h2 with ⟨s4, he2, h2, hs⟩ | ⟨s4, h2, h3⟩
    · obtain ⟨k2, ht2, _⟩ := fsm_read_next_frame _ _ _ _ _ _ _ h2
      refine ⟨k1 + k2, Or.inr (Or.inl ⟨Or.inl he2, ?_⟩)⟩
      rw [hs, (error_path_trace env s4).1, (error_path_trace env s4).2, ht2, ht1',
        List.replicate_add]
      simp
    · obtain ⟨k2, ht2, _⟩ := fsm_read_next_frame _ _ _ _ _ _ _ h2
      rcases h3 with ⟨s5, he3, h3, hs⟩ | ⟨s5, h3, h4⟩
      · obtain ⟨k3, ht3, _⟩ := fsm_read_next_frame _ _ _ _ _ _ _ h3
        refine ⟨k1 + k2 + k3, Or.inr (Or.inl ⟨Or.inr (Or.inl he3), ?_⟩)⟩
        rw [hs, (error_path_trace env s5).1, (error_path_trace env s5).2, ht3, ht2, ht1',
          List.replicate_add, List.replicate_add]
        simp
      · obtain ⟨k3, ht3, _⟩ := fsm_read_next_frame _ _ _ _ _ _ _ h3
        rw [fsm_check_checksum_eq env _ _ _ _ (by decide)] at h4
        rcases h4 with ⟨he4, _, hs⟩ | ⟨he4, _, hs⟩
        · refine ⟨k1 + k2 + k3, Or.inr (Or.inl ⟨Or.inr (Or.inr he4), ?_⟩)⟩
          rw [hs, (error_path_trace env _).1, (error_path_trace env _).2, pokeFrom_trace,
            pokeFrom_major_key, ht3, ht2, ht1', List.replicate_add, List.replicate_add]
          simp
        · obtain ⟨x, hx⟩ : ∃ x, x = fsm_ack env s5.major_key
              (State.pokeFrom ⟨Region.fsm_checksum_cmp_buffer, 0⟩
                (frame_checksum (checksum_of_key env s5.major_key)
                  (s5.peekN ⟨Region.fsm_buffer, 0⟩ (num_s1_bytes + s5.num_s2_bytes.val)))
                0 s5) := ⟨_, rfl⟩
          have hxt : x.trace = s5.trace ++
              ack_frame env (checksum_of_key env s5.major_key) s5.major_key := by
            rw [hx, fsm_ack_trace, pokeFrom_trace, pokeFrom_major_key]
          have hxm : x.major_key = s5.major_key := by
            rw [hx, fsm_ack_major_key, pokeFrom_major_key]
          simp only at hs
          rw [← hx, fsm_run_eq] at hs
          refine ⟨k1 + k2 + k3, Or.inr (Or.inr ⟨he4,
            x.peekN ⟨Region.fsm_buffer, x.fsm_buffer_ptr⟩ x.num_s2_bytes.val, ?_⟩)⟩
          rw [hs]
          simp only
          rw [hxt, hxm, ht3, ht2, ht1', List.replicate_add, List.replicate_add]
          simp

/-! ## Claims on the blocking engine -/

/-- C1: for every `major_key` and every payload whose length is the byte
`stage2_len`, when the source delivers, within `k` delays that fit the packet
timeout, the header `{major_key, stage2_len}`, the payload and a trailer equal
to the checksum of header and payload under the strategy of the class of
`major_key` (computed from a zero start value), and that strategy's verify
accepts the trailer against itself, one pass of `fsm_poll` (the timeout being
a `uint32_t`) ends after
`fsm_run`: besides the delays of its reads it sends exactly one ACK frame, the
two bytes `{MAJOR_KEY_ACK, major_key}` with their checksum, and then makes
exactly one dispatch, to the handler chosen by `major_key`, with the original
payload bytes and the length `stage2_len`. It has taken the bytes of the
packet from the source and no others. -/
theorem fsm_poll_iteration_dispatches (env : Env) (fuel k : Nat) (s : State)
    (major_key stage2_len : Byte) (payload rest : List Byte)
    (hlen : payload.length = stage2_len.val)
    (hT : env.packet_timeout < 2 ^ 32) (hk : 10 * k ≤ env.packet_timeout)
    (hfuel : k ≤ fuel)
    (hsrc : s.pending ++ (s.incoming.take k).flatten =
      [major_key, stage2_len] ++ payload ++
        frame_checksum (checksum_of_key env major_key) ([major_key, stage2_len] ++ payload) ++
        rest)
    (hverify : (checksum_of_key env major_key).check_checksum
      (frame_checksum (checksum_of_key env major_key) ([major_key, stage2_len] ++ payload))
      (frame_checksum (checksum_of_key env major_key) ([major_key, stage2_len] ++ payload))
        = true) :
    ∃ j s', j ≤ k ∧ fsm_poll_iteration env fuel s = some (PollExit.dispatched, s') ∧
      s'.trace = s.trace ++ List.replicate j (Event.uc_delay 10) ++
        [Event.uc_send [env.MAJOR_KEY_ACK, major_key],
         Event.uc_send
           (frame_checksum (checksum_of_key env major_key) [env.MAJOR_KEY_ACK, major_key]),
         dispatch_event env major_key payload] ∧
      s'.pending ++ (s'.incoming.take (k - j)).flatten = rest := by
  have hT' : env.packet_timeout < UINT32_MOD := hT
  have hk' : check_delay * k ≤ env.packet_timeout := hk
  -- the header
  obtain ⟨j1, s1, hj1, hr1, hrest1, htr1, hpk1, -, -, -, hptr1, -⟩ :=
    fsm_read_next_delivered fuel ⟨Region.fsm_buffer, 0⟩ env.packet_timeout
      { s with fsm_buffer_ptr := 0 } k [major_key, stage2_len]
      (payload ++ (frame_checksum (checksum_of_key env major_key)
        ([major_key, stage2_len] ++ payload) ++ rest)) hT' hk' hfuel
      (by simpa using hsrc)
  have hm0 : s1.mem Region.fsm_buffer 0 = major_key ∧
      s1.mem Region.fsm_buffer 1 = stage2_len := by
    simpa [State.peekN, State.peek, List.range_succ] using hpk1
  have hmk3 : (fsm_store_s1 s1).major_key = major_key := hm0.1
  have hn3 : (fsm_store_s1 s1).num_s2_bytes = stage2_len := hm0.2
  have hptr3 : (fsm_store_s1 s1).fsm_buffer_ptr = 2 := by
    show s1.fsm_buffer_ptr + num_s1_bytes = 2
    rw [hptr1]
    rfl
  -- the payload
  obtain ⟨j2, s4, hj2, hr2, hrest2, htr2, hpk2, hmem2, hmk4, hn4, hptr4, -⟩ :=
    fsm_read_next_delivered fuel ⟨Region.fsm_buffer, 2⟩ env.packet_timeout
      (fsm_store_s1 s1) (k - j1) payload
      (frame_checksum (checksum_of_key env major_key)
        ([major_key, stage2_len] ++ payload) ++ rest) hT'
      (le_trans (Nat.mul_le_mul_left _ (Nat.sub_le _ _)) hk') (by omega) hrest1
  rw [hmk3] at hmk4
  rw [hn3] at hn4
  rw [hptr3] at hptr4
  -- the trailer
  have hsize : (fsm_get_checksum_struct env s4).get_checksum_size =
      (frame_checksum (checksum_of_key env major_key)
        ([major_key, stage2_len] ++ payload)).length := by
    rw [fsm_get_checksum_struct_eq, hmk4]
    exact ((checksum_of_key env major_key).size_ok _ _).symm
  obtain ⟨j3, s5, hj3, hr3, hrest3, htr3, hpk3, hmem3, hmk5, hn5, hptr5, -⟩ :=
    fsm_read_next_delivered fuel ⟨Region.fsm_checksum_buffer, 0⟩ env.packet_timeout
      s4 (k - j1 - j2)
      (frame_checksum (checksum_of_key env major_key) ([major_key, stage2_len] ++ payload))
      rest hT'
      (le_trans (Nat.mul_le_mul_left _ (le_trans (Nat.sub_le _ _) (Nat.sub_le _ _))) hk')
      (by omega) hrest2
  rw [hmk4] at hmk5
  rw [hn4] at hn5
  rw [hptr4] at hptr5
  -- the buffer after the three reads
  have hpay : s5.peekN ⟨Region.fsm_buffer, 2⟩ payload.length = payload := by
    exact (peekN_congr s5 s4 Region.fsm_buffer 2 payload.length
      (fun i _ _ => hmem3 Region.fsm_buffer i (Or.inl (by decide)))).trans hpk2
  have hhdr : s5.peekN ⟨Region.fsm_buffer, 0⟩ 2 = [major_key, stage2_len] := by
    refine (peekN_congr s5 s1 Region.fsm_buffer 0 2 (fun i _ hi => ?_)).trans hpk1
    rw [hmem3 Region.fsm_buffer i (Or.inl (by decide)),
      hmem2 Region.fsm_buffer i (Or.inr (Or.inl (by simpa using hi)))]
    rfl
  have hdata : s5.peekN ⟨Region.fsm_buffer, 0⟩ (num_s1_bytes + s5.num_s2_bytes.val) =
      [major_key, stage2_len] ++ payload := by
    rw [hn5, ← hlen]
    show s5.peekN ⟨Region.fsm_buffer, 0⟩ (2 + payload.length) = _
    rw [peekN_add, hhdr, Nat.zero_add, hpay]
  have hcheck := fsm_check_checksum_eq env ⟨Region.fsm_buffer, 0⟩
    (num_s1_bytes + s5.num_s2_bytes.val) ⟨Region.fsm_checksum_buffer, 0⟩ s5 (by decide)
  have hcs : (checksum_of_key env major_key).get_checksum_size =
      (frame_checksum (checksum_of_key env major_key)
        ([major_key, stage2_len] ++ payload)).length :=
    ((checksum_of_key env major_key).size_ok _ _).symm
  rw [hdata, hmk5, hcs, hpk3, hverify] at hcheck
  have hexit := fsm_poll_iteration_dispatched env fuel s s1 s4 s5 hr1
    (by rw [hptr3, hn3, ← hlen]; exact hr2) (by rw [hsize]; exact hr3) (by rw [hcheck])
  rw [hcheck] at hexit
  refine ⟨j1 + j2 + j3, _, by omega, hexit, ?_, ?_⟩
  · rw [fsm_run_eq]
    simp only [fsm_ack_trace, fsm_ack_major_key, fsm_ack_num_s2_bytes, fsm_ack_fsm_buffer_ptr,
      fsm_ack_peekN_fsm_buffer, pokeFrom_trace, pokeFrom_major_key, pokeFrom_num_s2_bytes,
      pokeFrom_fsm_buffer_ptr]
    rw [peekN_pokeFrom_other _ _ _ _ _ _ (fun h => by cases h), hmk5, hn5, hptr5, ← hlen, hpay, htr3,
      htr2, List.replicate_add, List.replicate_add]
    show (s1.trace ++ _ ++ _ ++ _) ++ _ = _
    rw [htr1]
    simp [ack_frame]
  · rw [fsm_run_eq]
    simp only [fsm_ack_pending, fsm_ack_incoming, pokeFrom_pending, pokeFrom_incoming]
    rw [← Nat.sub_sub, ← Nat.sub_sub]
    exact hrest3

set_option maxRecDepth 100000 in
/-- C1, at a concrete input (the scenario of the spec): header `{IO, 4}`,
payload `[1, 2, 3, 4]` and the CRC-8 of the six bytes pending at the start. -/
theorem fsm_poll_iteration_dispatches_witness :
    ∃ s', fsm_poll_iteration sample_env 0 { idle_state with pending := [3, 4, 1, 2, 3, 4, 23] }
        = some (PollExit.dispatched, s') ∧
      s'.trace = [Event.uc_send [2, 3], Event.uc_send [35], Event.uc_io [1, 2, 3, 4] 4] := by
  obtain ⟨j, s', hj, h, ht, _⟩ := fsm_poll_iteration_dispatches sample_env 0 0
    { idle_state with pending := [3, 4, 1, 2, 3, 4, 23] } 3 4 [1, 2, 3, 4] []
    (by decide) (by decide) (by decide) (by decide) (by decide) (by decide)
  have hj0 : j = 0 := by omega
  subst hj0
  refine ⟨s', h, ?_⟩
  rw [ht]
  decide

/-- C9: a pass of `fsm_poll` in which the header read times out sends nothing
(no ACK), does not call `uc_reset_buffers`, does not dispatch: it adds only
the delays of the read to the record. It takes no byte from the source, leaves
`major_key`, `num_s2_bytes` and the buffers as they were, and the next pass
starts over, at the header read, from the state it left. -/
theorem fsm_poll_header_timeout (env : Env) (fuel : Nat) (s s' : State)
    (h : fsm_poll_iteration env fuel s = some (PollExit.header_timeout, s')) :
    ∃ k, 0 < k ∧
      s'.trace = s.trace ++ List.replicate k (Event.uc_delay 10) ∧
      s'.pending = s.pending ++ (s.incoming.take k).flatten ∧
      s'.major_key = s.major_key ∧ s'.num_s2_bytes = s.num_s2_bytes ∧ s'.mem = s.mem ∧
      ∀ n, fsm_poll env fuel (n + 1) s =
        (fsm_poll env fuel n s').map (fun r => (PollExit.header_timeout :: r.1, r.2)) := by
  have hnext := fun n => fsm_poll_succ env fuel n s _ s' h
  rcases fsm_poll_iteration_cases env fuel s _ s' h with ⟨_, h1⟩ | ⟨s1, _, h2⟩
  · obtain ⟨k, _, hk⟩ := fsm_read_next_some _ _ _ _ _ _ _ h1
    rcases hk with ⟨_, hpos, hs⟩ | ⟨hr, _⟩
    · subst hs
      exact ⟨k, hpos, rfl, rfl, rfl, rfl, rfl, hnext⟩
    · cases hr
  · rcases h2 with ⟨_, he, _⟩ | ⟨_, _, h3⟩
    · cases he
    · rcases h3 with ⟨_, he, _⟩ | ⟨_, _, h4⟩
      · cases he
      · rcases h4 with ⟨he, _⟩ | ⟨he, _⟩ <;> cases he

/-- C10: a pass of `fsm_poll` that has read the header and then ends because
the payload read timed out, the checksum read timed out or the checksum did
not verify adds to the record, after the delays of its reads, exactly one ACK
frame with the bytes `{MAJOR_KEY_ACK, MAJOR_KEY_ERROR}` and one call of
`uc_reset_buffers`, and no dispatch. The next pass starts from the state it
left, and starts by resetting the buffer cursor before the header read. -/
theorem fsm_poll_packet_error (env : Env) (fuel : Nat) (s : State) (e : PollExit)
    (s' : State) (h : fsm_poll_iteration env fuel s = some (e, s'))
    (he : e = PollExit.payload_timeout ∨ e = PollExit.checksum_timeout ∨
      e = PollExit.checksum_mismatch) :
    (∃ k, s'.trace = s.trace ++ List.replicate k (Event.uc_delay 10) ++
      [Event.uc_send [env.MAJOR_KEY_ACK, env.MAJOR_KEY_ERROR],
       Event.uc_send (frame_checksum (fsm_get_checksum_struct env s')
         [env.MAJOR_KEY_ACK, env.MAJOR_KEY_ERROR]),
       Event.uc_reset_buffers]) ∧
    (∀ n, fsm_poll env fuel (n + 1) s =
      (fsm_poll env fuel n s').map (fun r => (e :: r.1, r.2))) ∧
    fsm_poll_iteration env fuel s' = fsm_poll_iteration env fuel { s' with fsm_buffer_ptr := 0 } := by
  refine ⟨?_, fun n => fsm_poll_succ env fuel n s _ s' h, rfl⟩
  obtain ⟨k, hk⟩ := fsm_poll_iteration_trace env fuel s e s' h
  refine ⟨k, ?_⟩
  rcases hk with ⟨he1, _⟩ | ⟨_, ht⟩ | ⟨he1, _⟩
  · subst he1
    rcases he with he | he | he <;> cases he
  · rw [ht, fsm_get_checksum_struct_eq]
    simp [ack_frame]
  · subst he1
    rcases he with he | he | he <;> cases he

set_option maxRecDepth 100000 in
/-- C9, at a concrete input: the engine on an idle link, one-second timeout. -/
theorem fsm_poll_header_timeout_witness :
    ∃ s' k, fsm_poll_iteration sample_env 101 idle_state = some (PollExit.header_timeout, s') ∧
      0 < k ∧ s'.trace = List.replicate k (Event.uc_delay 10) ∧ s'.pending = [] := by
  have hx : (fsm_poll_iteration sample_env 101 idle_state).map Prod.fst
      = some PollExit.header_timeout := by decide
  obtain ⟨⟨e, s'⟩, h, he⟩ := Option.map_eq_some'.mp hx
  simp only at he
  subst he
  obtain ⟨k, hk, ht, hp, _⟩ := fsm_poll_header_timeout sample_env 101 idle_state s' h
  exact ⟨s', k, h, hk, by simpa [idle_state] using ht, by simpa [idle_state] using hp⟩

set_option maxRecDepth 100000 in
/-- C10, at a concrete input: header `{DATA_TRANSMIT, 2}`, the payload arrives,
the checksum never does. -/
theorem fsm_poll_packet_error_witness :
    ∃ s' k, fsm_poll_iteration sample_env 101 { idle_state with pending := [4, 2, 9, 9] }
        = some (PollExit.checksum_timeout, s') ∧
      s'.trace = List.replicate k (Event.uc_delay 10) ++
        [Event.uc_send [2, 0], Event.uc_send [42], Event.uc_reset_buffers] := by
  have hx : (fsm_poll_iteration sample_env 101 { idle_state with pending := [4, 2, 9, 9] }).map
      Prod.fst = some PollExit.checksum_timeout := by decide
  obtain ⟨⟨e, s'⟩, h, he⟩ := Option.map_eq_some'.mp hx
  simp only at he
  subst he
  obtain ⟨⟨k, ht⟩, _⟩ := fsm_poll_packet_error sample_env 101 _ _ s' h (Or.inr (Or.inl rfl))
  refine ⟨s', k, h, ?_⟩
  have hm : s'.major_key = 4 := by
    have := congrArg (Option.map (fun r => r.2.major_key)) h
    simp only [Option.map_some'] at this
    rw [← Option.some_inj, ← this]
    decide
  rw [ht, fsm_get_checksum_struct_eq, hm]
  simp [idle_state]
  decide

/-! ## The incremental engine -/

/-- A read that finds its bytes at once: no delay, the first `n` pending bytes
go to the destination. -/
theorem fsm_read_next_ready (fuel : Nat) (dest : Ptr) (n T : Nat) (s : State)
    (h : n ≤ s.pending.length) :
    fsm_read_next fuel dest n T s =
      some (true, State.pokeFrom dest (s.pending.take n) 0
        { s with pending := s.pending.drop n }) := by
  have hw : fsm_read_next_wait n T fuel 0 s = some (true, s) := by
    cases fuel <;> simp [fsm_read_next_wait, uc_bytes_available, Nat.not_lt.mpr h]
  unfold fsm_read_next
  rw [hw]
  simp only
  rw [fsm_read_next_copy_eq dest n 0 s h]

/-- What one call of `fsm_isr` adds to the record: nothing, a buffer clear, an
ACK frame naming ERROR followed by a buffer clear, or an ACK frame naming the
current `major_key`; each frame is checksummed with the strategy of the
context's `major_key`. -/
theorem fsm_isr_trace (env : Env) (fuel : Nat) (s : State) (r : Bool) (s' : State)
    (h : fsm_isr env fuel s = some (r, s')) :
    s'.trace = s.trace ∨
    s'.trace = s.trace ++ [Event.uc_reset_buffers] ∨
    s'.trace = s.trace ++ ack_frame env (checksum_of_key env s'.major_key)
      env.MAJOR_KEY_ERROR ++ [Event.uc_reset_buffers] ∨
    s'.trace = s.trace ++ ack_frame env (checksum_of_key env s'.major_key) s'.major_key := by
  unfold fsm_isr at h
  by_cases hs1 : s.curr_packet_stage = 1
  · simp only [hs1, if_true] at h
    by_cases ha : uc_bytes_available s = num_s1_bytes
    · simp only [ha, if_true] at h
      rw [fsm_read_next_ready fuel _ _ _ _ (by
        simp only [uc_bytes_available] at ha; exact le_of_eq ha.symm)] at h
      simp only at h
      split_ifs at h <;>
      · simp only [Option.some.injEq, Prod.mk.injEq] at h
        obtain ⟨-, rfl⟩ := h
        left
        show (State.pokeFrom _ _ 0 _).trace = _
        rw [pokeFrom_trace]
    · simp only [ha, if_false, Option.some.injEq, Prod.mk.injEq] at h
      obtain ⟨-, rfl⟩ := h
      exact Or.inl rfl
  · by_cases hs2 : s.curr_packet_stage = 2
    · simp only [hs2, if_true] at h
      by_cases ha : uc_bytes_available s = s.num_s2_bytes.val
      · rw [if_neg (by decide), if_pos ha] at h
        rw [fsm_read_next_ready fuel _ _ _ _ (by
          simp only [uc_bytes_available] at ha; exact le_of_eq ha.symm)] at h
        simp only [Option.some.injEq, Prod.mk.injEq] at h
        obtain ⟨-, rfl⟩ := h
        left
        show (State.pokeFrom _ _ 0 _).trace = _
        rw [pokeFrom_trace]
      · rw [if_neg (by decide), if_neg ha] at h
        simp only [Option.some.injEq, Prod.mk.injEq] at h
        obtain ⟨-, rfl⟩ := h
        exact Or.inl rfl
    · by_cases hs3 : s.curr_packet_stage = 3
      · simp only [hs3, if_true] at h
        rw [if_neg (by decide), if_neg (by decide)] at h
        by_cases ha : uc_bytes_available s = (fsm_get_checksum_struct env s).get_checksum_size
        · rw [if_pos ha] at h
          rw [fsm_read_next_ready fuel _ _ _ _ (by
            simp only [uc_bytes_available] at ha; exact le_of_eq ha.symm)] at h
          simp only at h
          rw [fsm_check_checksum_eq env _ _ _ _ (by decide)] at h
          simp only at h
          split_ifs at h
          · simp only [Option.some.injEq, Prod.mk.injEq] at h
            obtain ⟨-, rfl⟩ := h
            right; right; left
            rw [(error_path_trace env _).1, (error_path_trace env _).2]
            simp only [pokeFrom_trace, pokeFrom_major_key]
          · simp only [Option.some.injEq, Prod.mk.injEq] at h
            obtain ⟨-, rfl⟩ := h
            right; right; right
            simp only [fsm_ack_trace, fsm_ack_major_key, pokeFrom_trace, pokeFrom_major_key]
        · rw [if_neg ha] at h
          simp only [Option.some.injEq, Prod.mk.injEq] at h
          obtain ⟨-, rfl⟩ := h
          exact Or.inl rfl
      · simp only [hs1, hs2, hs3, if_false, Option.some.injEq, Prod.mk.injEq] at h
        obtain ⟨-, rfl⟩ := h
        exact Or.inr (Or.inl rfl)

/-- In stage 3 with exactly the checksum bytes available, a call of `fsm_isr`
that answers `false` (the trailer did not verify) has sent the ACK frame
naming ERROR and cleared the buffers, and has left `curr_packet_stage` at 3:
the branch returns before any assignment to the stage. -/
theorem fsm_isr_mismatch (env : Env) (fuel : Nat) (s s' : State)
    (hs : s.curr_packet_stage = 3)
    (ha : uc_bytes_available s = (fsm_get_checksum_struct env s).get_checksum_size)
    (h : fsm_isr env fuel s = some (false, s')) :
    s'.curr_packet_stage = 3 ∧
    s'.trace = s.trace ++ ack_frame env (checksum_of_key env s.major_key) env.MAJOR_KEY_ERROR
      ++ [Event.uc_reset_buffers] := by
  unfold fsm_isr at h
  simp only [hs] at h
  rw [if_neg (by decide), if_neg (by decide), if_pos trivial, if_pos ha] at h
  rw [fsm_read_next_ready fuel _ _ _ _ (by
    simp only [uc_bytes_available] at ha; exact le_of_eq ha.symm)] at h
  simp only at h
  rw [fsm_check_checksum_eq env _ _ _ _ (by decide)] at h
  simp only at h
  split_ifs at h
  · simp only [Option.some.injEq, Prod.mk.injEq, true_and] at h
    subst h
    refine ⟨?_, ?_⟩
    · rw [uc_reset_buffers_curr_packet_stage, fsm_ack_curr_packet_stage,
        pokeFrom_curr_packet_stage, pokeFrom_curr_packet_stage]
      exact hs
    · rw [(error_path_trace env _).1]
      simp only [pokeFrom_trace, pokeFrom_major_key]
  · simp only [Option.some.injEq, Prod.mk.injEq] at h
    exact absurd h.1 (by decide)

/-! ## Claims on both engines -/

set_option maxRecDepth 100000 in
/-- C5, as stated, fails: with the 8-bit sum as the strategy of the IO class
and the CRC-8 as the default, an IO header `{3, 0}` with a corrupt trailer is
answered by an ACK frame naming ERROR whose checksum is `[2]`, the sum of the
frame under the IO strategy, not `[42]`, its CRC-8 under the default strategy
of the class of the ERROR key. -/
theorem ack_error_not_default_class :
    (fsm_poll_iteration mixed_env 0 { idle_state with pending := [3, 0, 99] }).map
        (fun r => (r.1, r.2.trace))
      = some (PollExit.checksum_mismatch,
          [Event.uc_send [2, 0], Event.uc_send [2], Event.uc_reset_buffers]) ∧
    frame_checksum (checksum_of_key mixed_env mixed_env.MAJOR_KEY_ERROR) [2, 0] = [42] ∧
    frame_checksum mixed_env.default_checksum [2, 0] = [42] ∧
    frame_checksum mixed_env.io_checksum [2, 0] = [2] := by
  decide

/-- C5, amended: every ACK frame either engine emits, the frames naming ERROR
included, carries the checksum computed with the strategy that
`fsm_get_checksum_struct` selects for the context's `major_key`, the key of
the packet being received. One pass of `fsm_poll` adds to the record, after
its delays, nothing, or such a frame naming ERROR and a buffer clear, or such
a frame naming `major_key` and a dispatch; one call of `fsm_isr` adds nothing,
a buffer clear, such a frame naming ERROR and a buffer clear, or such a frame
naming `major_key`. -/
theorem ack_checksum_follows_major_key (env : Env) (fuel : Nat) (s : State) :
    (∀ e s', fsm_poll_iteration env fuel s = some (e, s') →
      ∃ k,
        s'.trace = s.trace ++ List.replicate k (Event.uc_delay 10) ∨
        s'.trace = s.trace ++ List.replicate k (Event.uc_delay 10) ++
          ack_frame env (fsm_get_checksum_struct env s') env.MAJOR_KEY_ERROR ++
          [Event.uc_reset_buffers] ∨
        ∃ payload, s'.trace = s.trace ++ List.replicate k (Event.uc_delay 10) ++
          ack_frame env (fsm_get_checksum_struct env s') s'.major_key ++
          [dispatch_event env s'.major_key payload]) ∧
    (∀ r s', fsm_isr env fuel s = some (r, s') →
      s'.trace = s.trace ∨
      s'.trace = s.trace ++ [Event.uc_reset_buffers] ∨
      s'.trace = s.trace ++ ack_frame env (fsm_get_checksum_struct env s')
        env.MAJOR_KEY_ERROR ++ [Event.uc_reset_buffers] ∨
      s'.trace = s.trace ++ ack_frame env (fsm_get_checksum_struct env s') s'.major_key) := by
  constructor
  · intro e s' h
    obtain ⟨k, hk⟩ := fsm_poll_iteration_trace env fuel s e s' h
    refine ⟨k, ?_⟩
    rcases hk with ⟨_, ht⟩ | ⟨_, ht⟩ | ⟨_, payload, ht⟩
    · exact Or.inl ht
    · exact Or.inr (Or.inl ht)
    · exact Or.inr (Or.inr ⟨payload, ht⟩)
  · intro r s' h
    exact fsm_isr_trace env fuel s r s' h

set_option maxRecDepth 100000 in
/-- C5, amended, at concrete inputs: a corrupt and a valid IO packet through
one pass of `fsm_poll`, with the 8-bit sum as the strategy of the IO class. -/
theorem ack_checksum_follows_major_key_witness :
    (∃ s', fsm_poll_iteration mixed_env 0 { idle_state with pending := [3, 0, 99] }
        = some (PollExit.checksum_mismatch, s') ∧
      s'.trace = [Event.uc_send [2, 0], Event.uc_send [2], Event.uc_reset_buffers]) ∧
    (fsm_poll_iteration mixed_env 0 { idle_state with pending := [3, 0, 3] }).map
        (fun r => (r.1, r.2.trace))
      = some (PollExit.dispatched,
          [Event.uc_send [2, 3], Event.uc_send [5], Event.uc_io [] 0]) := by
  refine ⟨?_, by decide⟩
  have hx : (fsm_poll_iteration mixed_env 0 { idle_state with pending := [3, 0, 99] }).map
      (fun r => (r.1, r.2.trace, r.2.major_key))
        = some (PollExit.checksum_mismatch,
            [Event.uc_send [2, 0], Event.uc_send [2], Event.uc_reset_buffers], 3) := by
    decide
  obtain ⟨⟨e, s'⟩, h, he⟩ := Option.map_eq_some'.mp hx
  simp only [Prod.mk.injEq] at he
  obtain ⟨rfl, ht, _⟩ := he
  have := (ack_checksum_follows_major_key mixed_env 0
    { idle_state with pending := [3, 0, 99] }).1 _ s' h
  exact ⟨s', h, ht⟩

set_option maxRecDepth 100000 in
/-- C3, on the code: in stage 3, with the header `{3, 0}` buffered and the one
pending byte `99` not its CRC-8, `fsm_isr` sends the ACK frame naming ERROR,
clears the buffers and answers `false`, and `curr_packet_stage` is still 3,
not 1. -/
theorem fsm_isr_mismatch_keeps_stage_3 :
    (fsm_isr sample_env 0 corrupt_trailer_state).map
        (fun r => (r.1, r.2.curr_packet_stage, r.2.trace, r.2.pending))
      = some (false, 3,
          [Event.uc_send [2, 0], Event.uc_send [42], Event.uc_reset_buffers], []) := by
  decide

set_option maxRecDepth 100000 in
/-- C2, on the code: on the stream of a corrupt packet followed by a valid
one, each stage one burst, the blocking engine answers ACK(ERROR), then
ACK(IO) and a dispatch of the payload; the incremental engine answers
ACK(ERROR) and then nothing, held in stage 3. -/
theorem engines_differ_after_corrupt_packet :
    (fsm_poll sample_env 101 2 { idle_state with incoming := corrupt_then_valid }).map
        (fun r => (r.1, outputs r.2.trace))
      = some ([PollExit.checksum_mismatch, PollExit.dispatched],
          [Event.uc_send [2, 0], Event.uc_send [42],
           Event.uc_send [2, 3], Event.uc_send [35], Event.uc_io [7] 1]) ∧
    (isr_ticks sample_env 0 corrupt_then_valid idle_state).map
        (fun st => (st.curr_packet_stage, outputs st.trace))
      = some (3, [Event.uc_send [2, 0], Event.uc_send [42]]) := by
  decide

/-! ## The stages of the incremental engine -/

/-- A call of `fsm_isr` in stage 1, 2 or 3 that does not find exactly the
expected byte count changes nothing and answers `false`. -/
theorem fsm_isr_stall (env : Env) (fuel : Nat) (s : State)
    (hs : s.curr_packet_stage = 1 ∨ s.curr_packet_stage = 2 ∨ s.curr_packet_stage = 3)
    (ha : uc_bytes_available s ≠ isr_expected env s) :
    fsm_isr env fuel s = some (false, s) := by
  unfold fsm_isr
  unfold isr_expected at ha
  rcases hs with hs | hs | hs
  · rw [if_pos hs] at ha
    rw [if_pos hs, if_neg ha]
  · have h1 : ¬ s.curr_packet_stage = 1 := by rw [hs]; decide
    rw [if_neg h1, if_pos hs] at ha
    rw [if_neg h1, if_pos hs, if_neg ha]
  · have h1 : ¬ s.curr_packet_stage = 1 := by rw [hs]; decide
    have h2 : ¬ s.curr_packet_stage = 2 := by rw [hs]; decide
    rw [if_neg h1, if_neg h2] at ha
    rw [if_neg h1, if_neg h2, if_pos hs]
    simp only
    rw [if_neg ha]

/-- A call of `fsm_isr` in stage 1 that finds exactly `num_s1_bytes` bytes
reads them to the start of `fsm_buffer`, stores the key and the length, and
moves to stage 3 when the length is 0 and to stage 2 otherwise. -/
theorem fsm_isr_stage_1_eq (env : Env) (fuel : Nat) (s : State)
    (hs : s.curr_packet_stage = 1) (ha : uc_bytes_available s = num_s1_bytes) :
    fsm_isr env fuel s = some (false,
      { fsm_store_s1 (State.pokeFrom ⟨Region.fsm_buffer, 0⟩ (s.pending.take num_s1_bytes) 0
          { s with fsm_buffer_ptr := 0, pending := s.pending.drop num_s1_bytes }) with
        curr_packet_stage :=
          if (fsm_store_s1 (State.pokeFrom ⟨Region.fsm_buffer, 0⟩
              (s.pending.take num_s1_bytes) 0
              { s with fsm_buffer_ptr := 0,
                       pending := s.pending.drop num_s1_bytes })).num_s2_bytes = 0
          then 3 else 2 }) := by
  unfold fsm_isr
  rw [if_pos hs, if_pos ha]
  simp only
  rw [fsm_read_next_ready fuel _ _ _ _ (by
    simp only [uc_bytes_available] at ha; exact le_of_eq ha.symm)]
  simp only
  split_ifs <;> rfl

/-- A call of `fsm_isr` in stage 2 that finds exactly `num_s2_bytes` bytes
reads them to `fsm_buffer_ptr` and moves to stage 3. -/
theorem fsm_isr_stage_2_eq (env : Env) (fuel : Nat) (s : State)
    (hs : s.curr_packet_stage = 2) (ha : uc_bytes_available s = s.num_s2_bytes.val) :
    fsm_isr env fuel s = some (false,
      { State.pokeFrom ⟨Region.fsm_buffer, s.fsm_buffer_ptr⟩
          (s.pending.take s.num_s2_bytes.val) 0
          { s with pending := s.pending.drop s.num_s2_bytes.val } with
        curr_packet_stage := 3 }) := by
  have h1 : ¬ s.curr_packet_stage = 1 := by rw [hs]; decide
  unfold fsm_isr
  rw [if_neg h1, if_pos hs, if_pos ha]
  rw [fsm_read_next_ready fuel _ _ _ _ (by
    simp only [uc_bytes_available] at ha; exact le_of_eq ha.symm)]

/-- A call of `fsm_isr` with a stage other than 1, 2 and 3 sets the stage to 1
and clears the buffers. -/
theorem fsm_isr_other_stage_eq (env : Env) (fuel : Nat) (s : State)
    (h1 : s.curr_packet_stage ≠ 1) (h2 : s.curr_packet_stage ≠ 2)
    (h3 : s.curr_packet_stage ≠ 3) :
    fsm_isr env fuel s = some (false, uc_reset_buffers env { s with curr_packet_stage := 1 }) := by
  unfold fsm_isr
  rw [if_neg h1, if_neg h2, if_neg h3]

/-- A call of `fsm_isr` in stage 3 that finds exactly the checksum bytes of
the class of `major_key` reads them to the checksum buffer and verifies them
against the checksum of the buffered header and payload: on a mismatch it
takes the error path and answers `false`, otherwise it sends the ACK frame
naming `major_key`, sets the stage to 1 and answers `true`. -/
theorem fsm_isr_stage_3_eq (env : Env) (fuel : Nat) (s : State)
    (hs : s.curr_packet_stage = 3)
    (ha : uc_bytes_available s = (fsm_get_checksum_struct env s).get_checksum_size) :
    fsm_isr env fuel s = some (
      if (checksum_of_key env s.major_key).check_checksum s.pending
          (frame_checksum (checksum_of_key env s.major_key)
            (s.peekN ⟨Region.fsm_buffer, 0⟩ (num_s1_bytes + s.num_s2_bytes.val))) = false
      then (false, uc_reset_buffers env (fsm_ack env env.MAJOR_KEY_ERROR
        (State.pokeFrom ⟨Region.fsm_checksum_cmp_buffer, 0⟩
          (frame_checksum (checksum_of_key env s.major_key)
            (s.peekN ⟨Region.fsm_buffer, 0⟩ (num_s1_bytes + s.num_s2_bytes.val))) 0
          (State.pokeFrom ⟨Region.fsm_checksum_buffer, 0⟩ s.pending 0
            { s with pending := [] }))))
      else (true,
        { fsm_ack env s.major_key
            (State.pokeFrom ⟨Region.fsm_checksum_cmp_buffer, 0⟩
              (frame_checksum (checksum_of_key env s.major_key)
                (s.peekN ⟨Region.fsm_buffer, 0⟩ (num_s1_bytes + s.num_s2_bytes.val))) 0
              (State.pokeFrom ⟨Region.fsm_checksum_buffer, 0⟩ s.pending 0
                { s with pending := [] })) with
          curr_packet_stage := 1 })) := by
  have h1 : ¬ s.curr_packet_stage = 1 := by rw [hs]; decide
  have h2 : ¬ s.curr_packet_stage = 2 := by rw [hs]; decide
  have hlen : s.pending.length = (checksum_of_key env s.major_key).get_checksum_size := ha
  have htake : s.pending.take (checksum_of_key env s.major_key).get_checksum_size
      = s.pending := by rw [← hlen]; exact List.take_length _
  have hdrop : s.pending.drop (checksum_of_key env s.major_key).get_checksum_size = [] := by
    rw [← hlen]; exact List.drop_length _
  have hcs : (State.pokeFrom ⟨Region.fsm_checksum_buffer, 0⟩ s.pending 0
      { s with pending := [] }).peekN ⟨Region.fsm_checksum_buffer, 0⟩
        (checksum_of_key env s.major_key).get_checksum_size = s.pending := by
    rw [← hlen]
    exact peekN_pokeFrom _ _ _
  have hbuf : (State.pokeFrom ⟨Region.fsm_checksum_buffer, 0⟩ s.pending 0
      { s with pending := [] }).peekN ⟨Region.fsm_buffer, 0⟩
        (num_s1_bytes + s.num_s2_bytes.val)
        = s.peekN ⟨Region.fsm_buffer, 0⟩ (num_s1_bytes + s.num_s2_bytes.val) :=
    peekN_pokeFrom_other _ _ _ _ _ _ (by decide)
  unfold fsm_isr
  rw [if_neg h1, if_neg h2, if_pos hs]
  simp only
  rw [if_pos ha]
  rw [fsm_read_next_ready fuel _ _ _ _ (le_of_eq ha.symm)]
  simp only
  rw [fsm_check_checksum_eq env _ _ _ _ (by decide)]
  simp only [fsm_get_checksum_struct_eq, htake, hdrop, pokeFrom_major_key,
    pokeFrom_num_s2_bytes, hcs, hbuf]
  split_ifs <;> rfl

/-! ## Claims on the incremental engine -/

/-- C11: a call of `fsm_isr` in stage 1. When exactly `num_s1_bytes` bytes
are available it takes exactly those two bytes from the source into the start
of `fsm_buffer`, sets `major_key` and `num_s2_bytes` from them and moves to
stage 3 when `num_s2_bytes` is 0 and to stage 2 otherwise; with any other
count, smaller or larger, it changes nothing and stays in stage 1. In both
cases it answers `false` and the record of hook calls is as before: nothing is
sent. -/
theorem fsm_isr_stage_1 (env : Env) (fuel : Nat) (s : State)
    (hs : s.curr_packet_stage = 1) :
    (uc_bytes_available s = num_s1_bytes →
      ∃ key len s', s.pending = [key, len] ∧ fsm_isr env fuel s = some (false, s') ∧
        s'.pending = [] ∧ s'.peekN ⟨Region.fsm_buffer, 0⟩ num_s1_bytes = [key, len] ∧
        s'.major_key = key ∧ s'.num_s2_bytes = len ∧
        s'.curr_packet_stage = (if len = 0 then 3 else 2) ∧ s'.trace = s.trace) ∧
    (uc_bytes_available s ≠ num_s1_bytes →
      fsm_isr env fuel s = some (false, s)) := by
  constructor
  · intro ha
    have hl : s.pending.length = 2 := ha
    obtain ⟨key, len, hp⟩ : ∃ key len, s.pending = [key, len] := by
      match h : s.pending with
      | [a, b] => exact ⟨a, b, rfl⟩
      | [] => rw [h] at hl; simp at hl
      | [_] => rw [h] at hl; simp at hl
      | _ :: _ :: _ :: _ => rw [h] at hl; simp at hl
    refine ⟨key, len, _, hp, fsm_isr_stage_1_eq env fuel s hs ha, ?_, ?_, ?_, ?_, ?_, ?_⟩
    · simp [fsm_store_s1, hp, num_s1_bytes]
    · simp [fsm_store_s1, hp, num_s1_bytes, pokeFrom_eq, State.peekN, State.peek,
        List.range_succ]
    · simp [fsm_store_s1, hp, num_s1_bytes, pokeFrom_eq, s1_major_key_loc]
    · simp [fsm_store_s1, hp, num_s1_bytes, pokeFrom_eq, s1_num_s2_bytes_loc]
    · simp [fsm_store_s1, hp, num_s1_bytes, pokeFrom_eq, s1_num_s2_bytes_loc]
    · simp [fsm_store_s1]
  · intro ha
    exact fsm_isr_stall env fuel s (Or.inl hs) (by
      unfold isr_expected
      rw [if_pos hs]
      exact ha)

set_option maxRecDepth 100000 in
/-- C11, at concrete inputs: stage 1 with the header `{3, 1}` pending, and
with three bytes pending. -/
theorem fsm_isr_stage_1_witness :
    (∃ s', fsm_isr sample_env 0 { idle_state with pending := [3, 1] } = some (false, s') ∧
      s'.major_key = 3 ∧ s'.num_s2_bytes = 1 ∧ s'.curr_packet_stage = 2) ∧
    fsm_isr sample_env 0 { idle_state with pending := [3, 1, 7] }
      = some (false, { idle_state with pending := [3, 1, 7] }) := by
  obtain ⟨key, len, s', hp, h, _, _, hk, hn, hst, _⟩ :=
    (fsm_isr_stage_1 sample_env 0 { idle_state with pending := [3, 1] } rfl).1 rfl
  have hkl : key = 3 ∧ len = 1 := by
    have : ([3, 1] : List Byte) = [key, len] := hp
    simp only [List.cons.injEq, and_true] at this
    exact ⟨this.1.symm, this.2.symm⟩
  obtain ⟨rfl, rfl⟩ := hkl
  exact ⟨⟨s', h, hk, hn, hst⟩,
    (fsm_isr_stage_1 sample_env 0 { idle_state with pending := [3, 1, 7] } rfl).2 (by decide)⟩

/-- C12: in each of the stages 1, 2 and 3, a call of `fsm_isr` that finds a
byte count other than the one expected at that stage (`num_s1_bytes`,
`num_s2_bytes`, or the checksum size of the current `major_key`) answers
`false` and leaves the whole state as it was; and over every sequence of
ticks whose bursts never bring the available count to that value, the engine
stays as it was, only the arrived bytes being added to the pending ones: no
byte is taken, nothing is sent, and stage, `major_key`, `num_s2_bytes` and the
buffers are unchanged. -/
theorem fsm_isr_stalls (env : Env) (fuel : Nat) (s : State)
    (hs : s.curr_packet_stage = 1 ∨ s.curr_packet_stage = 2 ∨ s.curr_packet_stage = 3) :
    (uc_bytes_available s ≠ isr_expected env s → fsm_isr env fuel s = some (false, s)) ∧
    (∀ bursts : List (List Byte),
      (∀ i, i < bursts.length →
        (s.pending ++ (bursts.take (i + 1)).flatten).length ≠ isr_expected env s) →
      isr_ticks env fuel bursts s = some { s with pending := s.pending ++ bursts.flatten }) := by
  refine ⟨fsm_isr_stall env fuel s hs, ?_⟩
  intro bursts
  induction bursts generalizing s with
  | nil =>
    intro _
    simp [isr_ticks]
  | cons b rest ih =>
    intro h
    have h0 : uc_bytes_available { s with pending := s.pending ++ b }
        ≠ isr_expected env { s with pending := s.pending ++ b } := by
      have := h 0 (by simp)
      simpa [uc_bytes_available] using this
    have hstep := fsm_isr_stall env fuel { s with pending := s.pending ++ b } hs h0
    simp only [isr_ticks, isr_tick, hstep]
    rw [ih { s with pending := s.pending ++ b } hs (fun i hi => by
      have := h (i + 1) (by simpa using hi)
      simpa [List.append_assoc] using this)]
    simp [List.append_assoc]

/-- C12, at a concrete input: stage 1, the three bytes of a header and a
payload byte arrive as one byte and then two, so that the count goes from 0
to 1 to 3 and is never 2. -/
theorem fsm_isr_stalls_witness :
    isr_ticks sample_env 0 [[3], [1, 7]] idle_state
      = some { idle_state with pending := [3, 1, 7] } :=
  (fsm_isr_stalls sample_env 0 idle_state (Or.inl rfl)).2 [[3], [1, 7]] (by decide)

/-- C13: `fsm_isr` always answers, and it answers `true` exactly when it is
called in stage 3 with the available byte count equal to the checksum size of
the current `major_key` and the pending bytes verify against the checksum of
the buffered header and payload. In that case it has added to the record
exactly one ACK frame, `{MAJOR_KEY_ACK, major_key}` with its checksum, and no
call of a handler or of `uc_reset`, and the stage is 1 again. -/
theorem fsm_isr_true_iff (env : Env) (fuel : Nat) (s : State) :
    ∃ r s', fsm_isr env fuel s = some (r, s') ∧
      (r = true ↔
        (s.curr_packet_stage = 3 ∧
         uc_bytes_available s = (fsm_get_checksum_struct env s).get_checksum_size ∧
         (fsm_get_checksum_struct env s).check_checksum s.pending
           (frame_checksum (fsm_get_checksum_struct env s)
             (s.peekN ⟨Region.fsm_buffer, 0⟩ (num_s1_bytes + s.num_s2_bytes.val))) = true)) ∧
      (r = true →
        s'.trace = s.trace ++
          [Event.uc_send [env.MAJOR_KEY_ACK, s.major_key],
           Event.uc_send (frame_checksum (fsm_get_checksum_struct env s)
             [env.MAJOR_KEY_ACK, s.major_key])] ∧
        s'.curr_packet_stage = 1) := by
  by_cases h3 : s.curr_packet_stage = 3
  · by_cases ha : uc_bytes_available s = (fsm_get_checksum_struct env s).get_checksum_size
    · have heq := fsm_isr_stage_3_eq env fuel s h3 ha
      by_cases hv : (checksum_of_key env s.major_key).check_checksum s.pending
          (frame_checksum (checksum_of_key env s.major_key)
            (s.peekN ⟨Region.fsm_buffer, 0⟩ (num_s1_bytes + s.num_s2_bytes.val))) = false
      · rw [if_pos hv] at heq
        refine ⟨false, _, heq, ?_, fun h => by cases h⟩
        constructor
        · intro h; cases h
        · rintro ⟨_, _, hv'⟩
          rw [fsm_get_checksum_struct_eq, hv] at hv'
          cases hv'
      · rw [if_neg hv] at heq
        refine ⟨true, _, heq, ?_, fun _ => ⟨?_, rfl⟩⟩
        · constructor
          · intro _
            refine ⟨h3, ha, ?_⟩
            rw [fsm_get_checksum_struct_eq]
            simpa using hv
          · intro _; rfl
        · simp only [fsm_ack_trace, pokeFrom_trace, pokeFrom_major_key,
            fsm_get_checksum_struct_eq]
          rfl
    · refine ⟨false, s, fsm_isr_stall env fuel s (Or.inr (Or.inr h3)) ?_, ?_,
        fun h => by cases h⟩
      · unfold isr_expected
        rw [if_neg (by rw [h3]; decide), if_neg (by rw [h3]; decide)]
        exact ha
      · constructor
        · intro h; cases h
        · rintro ⟨_, ha', _⟩
          exact absurd ha' ha
  · have hfalse : ∀ s', fsm_isr env fuel s = some (false, s') →
        ∃ r s', fsm_isr env fuel s = some (r, s') ∧
          (r = true ↔
            (s.curr_packet_stage = 3 ∧
             uc_bytes_available s = (fsm_get_checksum_struct env s).get_checksum_size ∧
             (fsm_get_checksum_struct env s).check_checksum s.pending
               (frame_checksum (fsm_get_checksum_struct env s)
                 (s.peekN ⟨Region.fsm_buffer, 0⟩
                   (num_s1_bytes + s.num_s2_bytes.val))) = true)) ∧
          (r = true →
            s'.trace = s.trace ++
              [Event.uc_send [env.MAJOR_KEY_ACK, s.major_key],
               Event.uc_send (frame_checksum (fsm_get_checksum_struct env s)
                 [env.MAJOR_KEY_ACK, s.major_key])] ∧
            s'.curr_packet_stage = 1) := by
      intro s' h
      refine ⟨false, s', h, ?_, fun h => by cases h⟩
      constructor
      · intro h; cases h
      · rintro ⟨h3', _⟩
        exact absurd h3' h3
    by_cases h1 : s.curr_packet_stage = 1
    · by_cases ha : uc_bytes_available s = num_s1_bytes
      · exact hfalse _ (fsm_isr_stage_1_eq env fuel s h1 ha)
      · exact hfalse _ (fsm_isr_stall env fuel s (Or.inl h1) (by
          unfold isr_expected; rw [if_pos h1]; exact ha))
    · by_cases h2 : s.curr_packet_stage = 2
      · by_cases ha : uc_bytes_available s = s.num_s2_bytes.val
        · exact hfalse _ (fsm_isr_stage_2_eq env fuel s h2 ha)
        · exact hfalse _ (fsm_isr_stall env fuel s (Or.inr (Or.inl h2)) (by
            unfold isr_expected; rw [if_neg h1, if_pos h2]; exact ha))
      · exact hfalse _ (fsm_isr_other_stage_eq env fuel s h1 h2 h3)

/-- C14: for every value of `curr_packet_stage` other than 1, 2 and 3, a call
of `fsm_isr` sets the stage to 1, calls `uc_reset_buffers` once, sends no ACK,
makes no read (the buffers are as before, and the pending bytes are what the
buffer clear leaves of them) and answers `false`. -/
theorem fsm_isr_other_stage (env : Env) (fuel : Nat) (s : State)
    (h1 : s.curr_packet_stage ≠ 1) (h2 : s.curr_packet_stage ≠ 2)
    (h3 : s.curr_packet_stage ≠ 3) :
    ∃ s', fsm_isr env fuel s = some (false, s') ∧
      s'.curr_packet_stage = 1 ∧
      s'.trace = s.trace ++ [Event.uc_reset_buffers] ∧
      s'.mem = s.mem ∧ s'.pending = env.uc_reset_buffers s.pending ∧
      s'.major_key = s.major_key ∧ s'.num_s2_bytes = s.num_s2_bytes :=
  ⟨_, fsm_isr_other_stage_eq env fuel s h1 h2 h3, rfl, rfl, rfl, rfl, rfl, rfl⟩

/-- C14, at concrete inputs: stage 0 and stage 4, with a byte pending. -/
theorem fsm_isr_other_stage_witness :
    (∃ s', fsm_isr sample_env 0 { idle_state with curr_packet_stage := 0, pending := [9] }
        = some (false, s') ∧
      s'.curr_packet_stage = 1 ∧ s'.trace = [Event.uc_reset_buffers]) ∧
    (∃ s', fsm_isr sample_env 0 { idle_state with curr_packet_stage := 4, pending := [9] }
        = some (false, s') ∧
      s'.curr_packet_stage = 1 ∧ s'.trace = [Event.uc_reset_buffers]) := by
  obtain ⟨s1, e1, a1, b1, _⟩ := fsm_isr_other_stage sample_env 0
    { idle_state with curr_packet_stage := 0, pending := [9] }
    (by decide) (by decide) (by decide)
  obtain ⟨s2, e2, a2, b2, _⟩ := fsm_isr_other_stage sample_env 0
    { idle_state with curr_packet_stage := 4, pending := [9] }
    (by decide) (by decide) (by decide)
  exact ⟨⟨s1, e1, a1, b1⟩, ⟨s2, e2, a2, b2⟩⟩

/-! ## Claims on dispatch and set-up -/

/-- C15: for every `major_key`, `fsm_run` makes exactly one call and changes
nothing else: `uc_io` for the IO key, `uc_data_transmit` for the DATA_TRANSMIT
key, `uc_programmer` for the PROGRAMMER key, each with the bytes at the
payload cursor `fsm_buffer_ptr` and with `num_s2_bytes`, and `uc_reset` for
every other key, among them MAJOR_KEY_ERROR, MAJOR_KEY_RESET and
MAJOR_KEY_ACK. -/
theorem fsm_run_dispatch (env : Env) (s : State) :
    (∃ e, fsm_run env s = { s with trace := s.trace ++ [e] }) ∧
    (s.major_key = env.GUI_TYPE_IO →
      (fsm_run env s).trace = s.trace ++
        [Event.uc_io (s.peekN ⟨Region.fsm_buffer, s.fsm_buffer_ptr⟩ s.num_s2_bytes.val)
          s.num_s2_bytes.val]) ∧
    (s.major_key = env.GUI_TYPE_DATA_TRANSMIT →
      (fsm_run env s).trace = s.trace ++
        [Event.uc_data_transmit
          (s.peekN ⟨Region.fsm_buffer, s.fsm_buffer_ptr⟩ s.num_s2_bytes.val)
          s.num_s2_bytes.val]) ∧
    (s.major_key = env.GUI_TYPE_PROGRAMMER →
      (fsm_run env s).trace = s.trace ++
        [Event.uc_programmer
          (s.peekN ⟨Region.fsm_buffer, s.fsm_buffer_ptr⟩ s.num_s2_bytes.val)
          s.num_s2_bytes.val]) ∧
    (s.major_key ≠ env.GUI_TYPE_IO → s.major_key ≠ env.GUI_TYPE_DATA_TRANSMIT →
      s.major_key ≠ env.GUI_TYPE_PROGRAMMER →
      (fsm_run env s).trace = s.trace ++ [Event.uc_reset]) ∧
    (s.major_key = env.MAJOR_KEY_ERROR ∨ s.major_key = env.MAJOR_KEY_RESET ∨
        s.major_key = env.MAJOR_KEY_ACK →
      (fsm_run env s).trace = s.trace ++ [Event.uc_reset]) := by
  have hk := env.keys_nodup
  simp only [List.nodup_cons, List.mem_cons, List.mem_singleton, not_or, List.not_mem_nil,
    not_false_eq_true, List.nodup_nil, and_true] at hk
  obtain ⟨⟨-, -, hei, hed, hep⟩, ⟨-, hri, hrd, hrp⟩, ⟨hai, had, hap⟩, ⟨hid, hip⟩, hdp⟩ := hk
  have hother : s.major_key ≠ env.GUI_TYPE_IO → s.major_key ≠ env.GUI_TYPE_DATA_TRANSMIT →
      s.major_key ≠ env.GUI_TYPE_PROGRAMMER →
      (fsm_run env s).trace = s.trace ++ [Event.uc_reset] := by
    intro h1 h2 h3
    simp [fsm_run, h1, h2, h3, uc_reset]
  refine ⟨⟨_, fsm_run_eq env s⟩, ?_, ?_, ?_, hother, ?_⟩
  · intro h
    simp [fsm_run, h]
  · intro h
    simp [fsm_run, h, Ne.symm hid]
  · intro h
    simp [fsm_run, h, Ne.symm hip, Ne.symm hdp]
  · rintro (h | h | h)
    · exact hother (h ▸ hei) (h ▸ hed) (h ▸ hep)
    · exact hother (h ▸ hri) (h ▸ hrd) (h ▸ hrp)
    · exact hother (h ▸ hai) (h ▸ had) (h ▸ hap)

/-- C15, at concrete inputs: the four kinds of key in the sample environment,
with an empty payload. -/
theorem fsm_run_dispatch_witness :
    (fsm_run sample_env { corrupt_trailer_state with major_key := 3 }).trace
      = [Event.uc_io [] 0] ∧
    (fsm_run sample_env { corrupt_trailer_state with major_key := 4 }).trace
      = [Event.uc_data_transmit [] 0] ∧
    (fsm_run sample_env { corrupt_trailer_state with major_key := 5 }).trace
      = [Event.uc_programmer [] 0] ∧
    (fsm_run sample_env { corrupt_trailer_state with major_key := 0 }).trace
      = [Event.uc_reset] :=
  ⟨(fsm_run_dispatch sample_env { corrupt_trailer_state with major_key := 3 }).2.1 rfl,
   (fsm_run_dispatch sample_env { corrupt_trailer_state with major_key := 4 }).2.2.1 rfl,
   (fsm_run_dispatch sample_env { corrupt_trailer_state with major_key := 5 }).2.2.2.1 rfl,
   (fsm_run_dispatch sample_env { corrupt_trailer_state with major_key := 0 }).2.2.2.2.2
     (Or.inl rfl)⟩

/-- C16: for every assignment of sizes to the four checksum strategies, the
`checksum_max_size` that `fsm_setup` computes, and with which it sizes the
checksum buffer and the checksum compare buffer, is the maximum of the four
sizes; so it is at least the size of the strategy that
`fsm_get_checksum_struct` returns, whatever the `major_key`. -/
theorem fsm_setup_checksum_max_size (env : Env) (buffer_len : Nat) (s : State) :
    (fsm_setup env buffer_len s).checksum_max_size =
      max (max (max env.default_checksum.get_checksum_size
        env.io_checksum.get_checksum_size)
        env.data_transfer_checksum.get_checksum_size)
        env.programmer_checksum.get_checksum_size ∧
    ∀ t : State, (fsm_get_checksum_struct env t).get_checksum_size
      ≤ (fsm_setup env buffer_len s).checksum_max_size := by
  have hval : (fsm_setup env buffer_len s).checksum_max_size =
      max (max (max env.default_checksum.get_checksum_size
        env.io_checksum.get_checksum_size)
        env.data_transfer_checksum.get_checksum_size)
        env.programmer_checksum.get_checksum_size := by
    simp only [fsm_setup, uc_reset]
    split_ifs <;> omega
  refine ⟨hval, fun t => ?_⟩
  rw [hval]
  unfold fsm_get_checksum_struct
  split_ifs <;> omega

/-! ## Termination of the packet reader -/

/-- On a source that stays short of `n` bytes, once the wrapped `wait_time`
exceeds the timeout after some `k` further delays, the polling loop answers
`false` after at most `k` delays. -/
theorem fsm_read_next_wait_exceeds (n T : Nat) :
    ∀ (k w fuel : Nat) (s : State), 0 < k → k ≤ fuel →
      T < (w + check_delay * k) % UINT32_MOD →
      (∀ j, (after_delays j s).pending.length < n) →
      ∃ j, 0 < j ∧ j ≤ k ∧ fsm_read_next_wait n T fuel w s = some (false, after_delays j s) := by
  intro k
  induction k with
  | zero => intro w fuel s hk; exact absurd hk (Nat.lt_irrefl 0)
  | succ k ih =>
    intro w fuel s _ hf hT hs
    obtain ⟨f, rfl⟩ : ∃ f, fuel = f + 1 := ⟨fuel - 1, by omega⟩
    have h0 : s.pending.length < n := by simpa [after_delays_zero] using hs 0
    by_cases h1 : T < (w + check_delay) % UINT32_MOD
    · refine ⟨1, by omega, by omega, ?_⟩
      simp only [fsm_read_next_wait, uc_bytes_available, h0, h1, if_true]
      rw [after_delays_succ, after_delays_zero]
    · have hk0 : 0 < k := by
        rcases Nat.eq_zero_or_pos k with hz | hp
        · subst hz
          simp only [Nat.zero_add, Nat.mul_one] at hT
          exact absurd hT h1
        · exact hp
      have hT' : T < ((w + check_delay) % UINT32_MOD + check_delay * k) % UINT32_MOD := by
        rw [Nat.mod_add_mod]
        have : w + check_delay + check_delay * k = w + check_delay * (k + 1) := by
          rw [Nat.mul_add, Nat.mul_one]; omega
        rw [this]
        exact hT
      obtain ⟨j, hj0, hjk, hres⟩ := ih ((w + check_delay) % UINT32_MOD) f
        (uc_delay check_delay s) hk0 (by omega) hT'
        (fun j => by rw [← after_delays_succ]; exact hs (j + 1))
      refine ⟨j + 1, by omega, by omega, ?_⟩
      simp only [fsm_read_next_wait, uc_bytes_available, h0, h1, if_true, if_false]
      rw [hres, after_delays_succ]

/-- With a timeout of `2^32 - 2` or more the wrapped `wait_time`, which stays
even, never exceeds the timeout: on a source that stays short of `n` bytes the
polling loop does not end, whatever the fuel. -/
theorem fsm_read_next_wait_never (n T : Nat) (hT : UINT32_MOD ≤ T + 2) :
    ∀ (fuel w : Nat) (s : State), w % 2 = 0 →
      (∀ j, (after_delays j s).pending.length < n) →
      fsm_read_next_wait n T fuel w s = none := by
  intro fuel
  induction fuel with
  | zero =>
    intro w s _ hs
    have h0 : s.pending.length < n := by simpa [after_delays_zero] using hs 0
    simp [fsm_read_next_wait, uc_bytes_available, h0]
  | succ fuel ih =>
    intro w s hw hs
    have h0 : s.pending.length < n := by simpa [after_delays_zero] using hs 0
    have h1 : ¬ T < (w + check_delay) % UINT32_MOD := by
      simp only [check_delay, UINT32_MOD] at hT ⊢
      omega
    have h2 : ((w + check_delay) % UINT32_MOD) % 2 = 0 := by
      simp only [check_delay, UINT32_MOD]
      omega
    simp only [fsm_read_next_wait, uc_bytes_available, h0, h1, if_true, if_false]
    exact ih _ _ h2 (fun j => by rw [← after_delays_succ]; exact hs (j + 1))

/-! ## Claims on the termination of the packet reader -/

/-- C17, as stated, fails: with the 32-bit timeout `2^32 - 1`, on a source
that never holds the byte asked for, `fsm_read_next` does not return, however
many polls it is given. -/
theorem fsm_read_next_max_timeout_spins :
    ¬ ∃ fuel, (fsm_read_next fuel ⟨Region.fsm_buffer, 0⟩ 1 (2 ^ 32 - 1) idle_state).isSome
      = true := by
  rintro ⟨fuel, h⟩
  have hw := fsm_read_next_wait_never 1 (2 ^ 32 - 1) (by decide) fuel 0 idle_state rfl
    (fun j => by simp [after_delays, idle_state])
  unfold fsm_read_next at h
  rw [hw] at h
  cases h

/-- C17, amended: for every count and every 32-bit timeout up to `2^32 - 3`,
on a source that never holds `count` bytes, `fsm_read_next` with `wait_time`
in unsigned 32-bit arithmetic returns `false` after finitely many polls, at
least one and at most 858993459 (the number of steps of 10 after which the
wrapped `wait_time` is `2^32 - 2`); for the timeouts `2^32 - 2` and
`2^32 - 1` it never returns. -/
theorem fsm_read_next_terminates (fuel : Nat) (dest : Ptr) (count timeout : Nat) (s : State)
    (hs : ∀ j, uc_bytes_available (after_delays j s) < count) :
    (timeout + 3 ≤ 2 ^ 32 → 858993459 ≤ fuel →
      ∃ j, 0 < j ∧ j ≤ 858993459 ∧
        fsm_read_next fuel dest count timeout s = some (false, after_delays j s)) ∧
    (2 ^ 32 ≤ timeout + 2 → fsm_read_next fuel dest count timeout s = none) := by
  constructor
  · intro hT hf
    have hmod : (0 + check_delay * 858993459) % UINT32_MOD = 2 ^ 32 - 2 := by decide
    obtain ⟨j, hj0, hjk, hres⟩ := fsm_read_next_wait_exceeds count timeout 858993459 0 fuel s
      (by decide) hf (by rw [hmod]; omega) hs
    exact ⟨j, hj0, hjk, by simp [fsm_read_next, hres]⟩
  · intro hT
    have hw := fsm_read_next_wait_never count timeout hT fuel 0 s rfl hs
    simp [fsm_read_next, hw]

/-- C17, amended, at concrete inputs: an idle source, one byte asked for, with
the timeouts `2^32 - 3` and `2^32 - 2`. -/
theorem fsm_read_next_terminates_witness :
    (∃ j, 0 < j ∧ j ≤ 858993459 ∧
      fsm_read_next 858993459 ⟨Region.fsm_buffer, 0⟩ 1 (2 ^ 32 - 3) idle_state
        = some (false, after_delays j idle_state)) ∧
    fsm_read_next 858993459 ⟨Region.fsm_buffer, 0⟩ 1 (2 ^ 32 - 2) idle_state = none :=
  ⟨(fsm_read_next_terminates 858993459 ⟨Region.fsm_buffer, 0⟩ 1 (2 ^ 32 - 3) idle_state
      (fun j => by simp [after_delays, idle_state, uc_bytes_available])).1
      (by decide) (by decide),
   (fsm_read_next_terminates 858993459 ⟨Region.fsm_buffer, 0⟩ 1 (2 ^ 32 - 2) idle_state
      (fun j => by simp [after_delays, idle_state, uc_bytes_available])).2 (by decide)⟩

/-! ## The 32-bit conversions of `gui-helper.cpp` -/

/-- One pass of the loop of `byteArray_to_uint32` while fewer than four bytes
have been read: the shift does not overflow, and the `|` adds the byte. -/
theorem uint32_shift_or (r : Nat) (b : Byte) (hr : r < 2 ^ 24) :
    ((r <<< 8) % UINT32_MOD) ||| b.val = r * 256 + b.val := by
  have hb : b.val < 2 ^ 8 := b.isLt
  have hlt : r * 2 ^ 8 < UINT32_MOD := by
    simp only [UINT32_MOD]
    omega
  rw [Nat.shiftLeft_eq, Nat.mod_eq_of_lt hlt, Nat.mul_comm r (2 ^ 8),
    ← Nat.mul_add_lt_is_or hb r]
  omega

/-- The loop of `byteArray_to_uint32` from index `i` on: it folds the bytes
from `i` up to the smaller of 4 and `data_len` into the value read so far. -/
theorem byteArray_to_uint32_loop_eq (data : List Byte) (data_len : Nat)
    (hlen : data_len ≤ data.length) :
    ∀ (passes i ret_data : Nat), passes + i = 4 → ret_data < 256 ^ i →
      GUI_HELPER.byteArray_to_uint32_loop data data_len passes i ret_data =
        ((data.drop i).take (min 4 data_len - i)).foldl
          (fun acc b => acc * 256 + b.val) ret_data := by
  intro passes
  induction passes with
  | zero =>
    intro i ret_data hi _
    have h0 : min 4 data_len - i = 0 := by omega
    simp [GUI_HELPER.byteArray_to_uint32_loop, h0]
  | succ passes ih =>
    intro i ret_data hi hret
    by_cases hc : i < 4 ∧ i < data_len
    · have hil : i < data.length := by omega
      have hr24 : ret_data < 2 ^ 24 := by
        have : (256 : Nat) ^ i ≤ 256 ^ 3 := Nat.pow_le_pow_right (by decide) (by omega)
        have h3 : (256 : Nat) ^ 3 = 2 ^ 24 := by decide
        omega
      have hnext : ret_data * 256 + (data[i]).val < 256 ^ (i + 1) := by
        have hb : (data[i]).val < 256 := (data[i]).isLt
        rw [Nat.pow_succ]
        have : (ret_data + 1) * 256 ≤ 256 ^ i * 256 := Nat.mul_le_mul_right _ hret
        omega
      have hsplit : (data.drop i).take (min 4 data_len - i) =
          data[i] :: (data.drop (i + 1)).take (min 4 data_len - (i + 1)) := by
        have h1 : min 4 data_len - i = (min 4 data_len - (i + 1)) + 1 := by omega
        rw [h1, List.drop_eq_getElem_cons hil, List.take_succ_cons]
      simp only [GUI_HELPER.byteArray_to_uint32_loop, hc, and_self, if_true]
      rw [List.getD_eq_getElem _ _ hil, uint32_shift_or _ _ hr24,
        ih (i + 1) _ (by omega) hnext, hsplit, List.foldl_cons]
    · have h0 : min 4 data_len - i = 0 := by omega
      simp [GUI_HELPER.byteArray_to_uint32_loop, hc, h0]

/-- What `byteArray_to_uint32` computes: the big-endian value of the first
bytes of the array, as many as the smaller of 4 and the length modulo 256. -/
theorem byteArray_to_uint32_eq (data : List Byte) :
    GUI_HELPER.byteArray_to_uint32 data =
      big_endian (data.take (min 4 (data.length % 256))) := by
  unfold GUI_HELPER.byteArray_to_uint32 big_endian
  simp only
  rw [byteArray_to_uint32_loop_eq data (data.length % 256) (Nat.mod_le _ _) 4 0 0 rfl
    (by decide)]
  simp

/-- The low byte and the shift of `uint32_to_byteArray` in arithmetic. -/
theorem low_byte_shift (y : Nat) : y &&& 0xFF = y % 256 ∧ y >>> 8 = y / 256 :=
  ⟨Nat.and_pow_two_sub_one_eq_mod y 8, Nat.shiftRight_eq_div_pow y 8⟩

/-- The four bytes `uint32_to_byteArray` writes. -/
theorem uint32_to_byteArray_eq (x : Nat) (hx : x < 2 ^ 32) :
    GUI_HELPER.uint32_to_byteArray x =
      [Fin.ofNat (x / 2 ^ 24 % 256), Fin.ofNat (x / 2 ^ 16 % 256),
       Fin.ofNat (x / 2 ^ 8 % 256), Fin.ofNat (x % 256)] := by
  have hmod : x % UINT32_MOD = x := Nat.mod_eq_of_lt hx
  simp only [GUI_HELPER.uint32_to_byteArray, GUI_HELPER.uint32_to_byteArray_loop, hmod,
    (low_byte_shift _).1, (low_byte_shift _).2]
  have h1 : x / 256 / 256 / 256 = x / 2 ^ 24 := by omega
  have h2 : x / 256 / 256 = x / 2 ^ 16 := by omega
  have h3 : x / 256 = x / 2 ^ 8 := by omega
  rw [h1, h2, h3]

/-! ## Claims on the 32-bit conversions -/

/-- C19: for every 32-bit unsigned `x`, `uint32_to_byteArray(x)` is exactly 4
bytes long and holds `x` most significant byte first, and
`byteArray_to_uint32` gives `x` back from it. -/
theorem uint32_to_byteArray_roundtrip (x : Nat) (hx : x < 2 ^ 32) :
    (GUI_HELPER.uint32_to_byteArray x).length = 4 ∧
    (GUI_HELPER.uint32_to_byteArray x).map Fin.val =
      [x / 2 ^ 24 % 256, x / 2 ^ 16 % 256, x / 2 ^ 8 % 256, x % 256] ∧
    GUI_HELPER.byteArray_to_uint32 (GUI_HELPER.uint32_to_byteArray x) = x := by
  rw [byteArray_to_uint32_eq, uint32_to_byteArray_eq x hx]
  refine ⟨rfl, ?_, ?_⟩
  · simp [Fin.ofNat]
  · simp only [List.length_cons, List.length_nil, big_endian, Fin.ofNat]
    simp only [List.take, List.foldl]
    omega

/-- C19, at a concrete input: `0x01020304`. -/
theorem uint32_to_byteArray_roundtrip_witness :
    GUI_HELPER.uint32_to_byteArray 0x01020304 = [1, 2, 3, 4] ∧
    GUI_HELPER.byteArray_to_uint32 [1, 2, 3, 4] = 0x01020304 := by
  have h := uint32_to_byteArray_roundtrip 0x01020304 (by decide)
  have hb : GUI_HELPER.uint32_to_byteArray 0x01020304 = [1, 2, 3, 4] := by decide
  exact ⟨hb, hb ▸ h.2.2⟩

set_option maxRecDepth 100000 in
/-- C20, on the code: for an array of 256 bytes `0x01` the local `data_len`,
a `uint8_t`, is 0, the loop makes no pass, and the result is 0, not the value
`0x01010101` of the first four bytes. -/
theorem byteArray_to_uint32_256_bytes :
    GUI_HELPER.byteArray_to_uint32 (List.replicate 256 1) = 0 ∧
    big_endian ((List.replicate 256 (1 : Byte)).take (min 4 256)) = 0x01010101 := by
  decide

/-! ## The text encoding of `gui-helper.cpp` -/

theorem digit_value_digit_char : ∀ d, d < 36 → digit_value (digit_char d) = some d := by
  decide

/-- Reading the digits that `digits_loop` wrote in front of `acc` leaves the
value `n` to go on with. -/
theorem parse_digits_digits_loop (base : Nat) (h2 : 2 ≤ base) (h36 : base ≤ 36) :
    ∀ (fuel n : Nat) (acc : List Byte), n < fuel →
      parse_digits base (digits_loop base fuel n acc) 0 = parse_digits base acc n := by
  intro fuel
  induction fuel with
  | zero => intro n acc h; exact absurd h (Nat.not_lt_zero n)
  | succ fuel ih =>
    intro n acc hn
    have hmod : n % base < base := Nat.mod_lt _ (by omega)
    have hdv := digit_value_digit_char (n % base) (by omega)
    by_cases hq : n / base = 0
    · have hnb : n % base = n := by
        have := Nat.div_add_mod n base
        rw [hq] at this
        omega
      simp only [digits_loop, hq, if_true, parse_digits, hdv, hmod, Nat.zero_mul, Nat.zero_add]
      rw [hnb]
    · have hlt : n / base < fuel := by
        have : n / base < n := Nat.div_lt_self (by
          rcases Nat.eq_zero_or_pos n with h0 | h0
          · subst h0; simp at hq
          · exact h0) (by omega)
        omega
      simp only [digits_loop, hq, if_false]
      rw [ih (n / base) _ hlt]
      simp only [parse_digits, hdv, hmod, if_true]
      rw [Nat.mul_comm, Nat.div_add_mod]

theorem digits_loop_ne_nil (base : Nat) :
    ∀ (fuel n : Nat) (acc : List Byte), acc ≠ [] ∨ 0 < fuel →
      digits_loop base fuel n acc ≠ [] := by
  intro fuel
  induction fuel with
  | zero =>
    intro n acc h
    rcases h with h | h
    · exact h
    · exact absurd h (Nat.lt_irrefl 0)
  | succ fuel ih =>
    intro n acc _
    simp only [digits_loop]
    split_ifs
    · exact List.cons_ne_nil _ _
    · exact ih _ _ (Or.inl (List.cons_ne_nil _ _))

theorem digits_loop_mem (base : Nat) (hb : 0 < base) :
    ∀ (fuel n : Nat) (acc : List Byte) (b : Byte), b ∈ digits_loop base fuel n acc →
      b ∈ acc ∨ ∃ d, d < base ∧ b = digit_char d := by
  intro fuel
  induction fuel with
  | zero => intro n acc b h; exact Or.inl h
  | succ fuel ih =>
    intro n acc b h
    simp only [digits_loop] at h
    split_ifs at h
    · rcases List.mem_cons.mp h with h | h
      · exact Or.inr ⟨n % base, Nat.mod_lt _ hb, h⟩
      · exact Or.inl h
    · rcases ih _ _ b h with h | h
      · rcases List.mem_cons.mp h with h | h
        · exact Or.inr ⟨n % base, Nat.mod_lt _ hb, h⟩
        · exact Or.inl h
      · exact Or.inr h

/-- The model `qt_ascii` has the documented behaviour. -/
theorem qt_ascii_documented : qt_ascii.Documented where
  number_digits := by
    intro n base _ h2 h36 b hb
    have hbase : (if base < 2 ∨ 36 < base then 10 else base) = base := by
      rw [if_neg (by omega)]
    simp only [qt_ascii, hbase] at hb
    rcases digits_loop_mem base (by omega) _ _ _ b hb with h | h
    · cases h
    · exact h
  toInt_number := by
    intro n base hn h2 h36
    have hbase : (if base < 2 ∨ 36 < base then 10 else base) = base := by
      rw [if_neg (by omega)]
    have hp := parse_digits_digits_loop base h2 h36 (n + 1) n [] (Nat.lt_succ_self n)
    have hne := digits_loop_ne_nil base (n + 1) n [] (Or.inr (Nat.succ_pos n))
    simp only [qt_ascii]
    rw [hbase]
    cases htext : digits_loop base (n + 1) n [] with
    | nil => exact absurd htext hne
    | cons c cs =>
      rw [htext] at hp
      unfold digits_toInt
      simp only
      rw [hp]
      simp only [parse_digits]
      rw [if_pos (by omega)]
  toInt_empty := fun _ => rfl
  char_ascii := by
    intro c hc
    simp [qt_ascii, hc]

theorem QByteArray_split_part (sep : Byte) (rest : List Byte) :
    ∀ part : List Byte, sep ∉ part →
      QByteArray_split sep (part ++ sep :: rest) = part :: QByteArray_split sep rest := by
  intro part
  induction part with
  | nil =>
    intro _
    simp [QByteArray_split]
  | cons b part ih =>
    intro h
    have hb : b ≠ sep := fun hbs => h (hbs ▸ List.mem_cons_self _ _)
    have hp : sep ∉ part := fun hps => h (List.mem_cons_of_mem _ hps)
    rw [List.cons_append]
    simp only [QByteArray_split, hb, if_false]
    rw [ih hp]

theorem int_to_char_val (b : Byte) : int_to_char (b.val : Int) = b := by
  apply Fin.ext
  have hb : b.val < 256 := b.isLt
  simp only [int_to_char, Fin.ofNat]
  omega

/-- The parts `decode_byteArray` finds in what `encode_byteArray` wrote: the
text of every byte, then one empty part after the last separator. -/
theorem QByteArray_split_encode (qt : Qt) (hqt : qt.Documented) (base sep : Byte)
    (h2 : 2 ≤ base.val) (h36 : base.val ≤ 36) (hascii : sep.val < 128)
    (hsep : ∀ d, d < base.val → sep ≠ digit_char d) (data : List Byte) :
    QByteArray_split sep
        (data.flatMap (fun elem => qt.number elem.val base.val ++ qt.char_bytes sep))
      = data.map (fun elem => qt.number elem.val base.val) ++ [[]] := by
  rw [hqt.char_ascii sep hascii]
  induction data with
  | nil => simp [QByteArray_split]
  | cons e data ih =>
    have hnot : sep ∉ qt.number e.val base.val := by
      intro hmem
      obtain ⟨d, hd, hdc⟩ := hqt.number_digits e.val base.val e.isLt h2 h36 sep hmem
      exact hsep d hd hdc
    rw [List.flatMap_cons, List.map_cons, List.append_assoc, List.singleton_append,
      QByteArray_split_part sep _ _ hnot, ih, List.cons_append]

/-! ## Claims on the text encoding -/

set_option maxRecDepth 100000 in
/-- C18, on the code: the byte array `[5]`, encoded in base 10 with the
separator `,`, is the text `5,`, and decoding it gives `[5, 0]`, not `[5]`:
the empty part after the last separator is read as 0. With the separator
`0xE9`, which is not ASCII, the encoding holds the two bytes of the UTF-8 form
of the character, the decoder finds no separator and gives `[0]`. -/
theorem decode_encode_not_identity :
    GUI_HELPER.encode_byteArray qt_ascii [5] 10 44 = [53, 44] ∧
    GUI_HELPER.decode_byteArray qt_ascii (GUI_HELPER.encode_byteArray qt_ascii [5] 10 44) 10 44
      = [5, 0] ∧
    GUI_HELPER.encode_byteArray qt_ascii [5] 10 0xE9 = [53, 0xC3, 0xA9] ∧
    GUI_HELPER.decode_byteArray qt_ascii
      (GUI_HELPER.encode_byteArray qt_ascii [5] 10 0xE9) 10 0xE9 = [0] := by
  decide

/-- What the round trip gives in general: for every byte array, every base
from 2 to 36 and every ASCII separator that is not a digit of that base,
decoding the encoding of the array gives the array followed by one zero
byte. -/
theorem decode_encode_byteArray (qt : Qt) (hqt : qt.Documented) (data : List Byte)
    (base sep : Byte) (h2 : 2 ≤ base.val) (h36 : base.val ≤ 36) (hascii : sep.val < 128)
    (hsep : ∀ d, d < base.val → sep ≠ digit_char d) :
    GUI_HELPER.decode_byteArray qt (GUI_HELPER.encode_byteArray qt data base sep) base sep
      = data ++ [0] := by
  have hb : base ≠ 0 := by
    intro h
    rw [h] at h2
    exact absurd h2 (by decide)
  unfold GUI_HELPER.decode_byteArray GUI_HELPER.encode_byteArray
  rw [if_neg hb, if_neg hb, QByteArray_split_encode qt hqt base sep h2 h36 hascii hsep data,
    List.map_append, List.map_map]
  have hparts : data.map ((fun elem => int_to_char (qt.toInt elem base.val)) ∘
      (fun elem : Byte => qt.number elem.val base.val)) = data := by
    conv_rhs => rw [← List.map_id data]
    apply List.map_congr_left
    intro e _
    simp only [Function.comp_apply, id_eq]
    rw [hqt.toInt_number e.val base.val e.isLt h2 h36]
    exact int_to_char_val e
  rw [hparts]
  simp only [List.map_cons, List.map_nil, hqt.toInt_empty]
  rfl

/-- The round trip at a concrete input: three bytes in base 16 with a blank as
separator. -/
theorem decode_encode_byteArray_example :
    GUI_HELPER.decode_byteArray qt_ascii
      (GUI_HELPER.encode_byteArray qt_ascii [5, 255, 0] 16 32) 16 32 = [5, 255, 0] ++ [0] :=
  decode_encode_byteArray qt_ascii qt_ascii_documented [5, 255, 0] 16 32
    (by decide) (by decide) (by decide) (by decide)

end UcFsm
